import Mathlib

/-!
collabREate `idanet.cpp`: frame codec, receiver loop, dispatch queue, sender, teardown.

A shallow embedding of the `IDA_SDK_VERSION >= 550` half of `src/idanet.cpp`
(the `AsyncSocket` implementation) together with the free functions
`requiredSize`, `isComplete` and the two `shift` overloads.

Conventions of the embedding

* `int` values are `Int`; a conversion to a 32-bit type is written with an explicit
  `% 2 ^ 32` (`toInt32`, `toUInt32`).
* External calls (`::send`, the `Dispatcher`, `msg`, `warning`, `closesocket`,
  `pthread_join`) are scripted by an oracle argument or recorded in a trace field.
* Loops whose termination is not structural carry a fuel argument; running out of fuel is
  the distinguished result `Fault.outOfFuel`, and each loop comes with a bound on the fuel
  that is enough (`recvHandler.extract_fuel`, `sendAll_progress`).
-/

namespace Idanet

/-! ## Buffer -/

/-- One octet. -/
abbrev Byte := Fin 256

/-- Modelled from the spec: class `Buffer` (`buffer.h` / `buffer.cpp`), which is not part of
`src/`.  The spec describes it as a "growable byte sequence with append, front-consume and
4-byte network-order integer read/write"; the model is the sequence of bytes written so far
(`get_buf()` is the sequence itself, offset `k` into it is `List.drop k`). -/
abbrev Buffer := List Byte

/-- Modelled from the spec: `Buffer::size()`, the number of bytes buffered, as an `int`. -/
def Buffer.size (b : Buffer) : Int := (b.length : Int)

/-- Modelled from the spec: `Buffer::reset()`, which empties the buffer. -/
def Buffer.reset (_b : Buffer) : Buffer := []

/-- Modelled from the spec: `Buffer::write(data, len)`, which appends the `len` bytes that
start at `data`; the caller passes those bytes. -/
def Buffer.write (b : Buffer) (data : List Byte) : Buffer := b ++ data

/-- Modelled from the spec: `Buffer::operator<<(Buffer&)`, which appends the whole content
of the right-hand buffer. -/
def Buffer.append (b : Buffer) (other : Buffer) : Buffer := b ++ other

/-- Value of an `int` after conversion to `uint32_t`. -/
def toUInt32 (v : Int) : Nat := (v % 2 ^ 32).toNat

/-- Value of a 32-bit pattern read as a (two's complement) `int`. -/
def toInt32 (n : Nat) : Int :=
  if n % 2 ^ 32 < 2 ^ 31 then ((n % 2 ^ 32 : Nat) : Int) else ((n % 2 ^ 32 : Nat) : Int) - 2 ^ 32

/-- The four bytes of a 32-bit value in network (big-endian) order. -/
def be32 (n : Nat) : List Byte :=
  [⟨n / 2 ^ 24 % 256, Nat.mod_lt _ (by decide)⟩, ⟨n / 2 ^ 16 % 256, Nat.mod_lt _ (by decide)⟩,
   ⟨n / 2 ^ 8 % 256, Nat.mod_lt _ (by decide)⟩, ⟨n % 256, Nat.mod_lt _ (by decide)⟩]

/-- Modelled from the spec: `Buffer::writeInt(int)`, which appends the value as a 4-byte
network-order integer. -/
def Buffer.writeInt (b : Buffer) (val : Int) : Buffer := b.write (be32 (toUInt32 val))

/-- The expression `qntohl(*(int*)b.get_buf())`: the first four bytes of the buffer read as
an unsigned 32-bit integer in network order (only evaluated when four bytes are there). -/
def qntohlFront (b : Buffer) : Nat :=
  (b.getD 0 0).val * 2 ^ 24 + (b.getD 1 0).val * 2 ^ 16 + (b.getD 2 0).val * 2 ^ 8
    + (b.getD 3 0).val

/-! ## Frame codec (`idanet.cpp` lines 148-185) -/

/-- The function `requiredSize(Buffer&)`: how large is the data packet under construction. -/
def requiredSize (b : Buffer) : Int :=
  if b.size ≥ 4 then toInt32 (qntohlFront b) else -1

/-- The function `isComplete(Buffer&)`: does the buffer contain a complete data packet. -/
def isComplete (b : Buffer) : Bool :=
  let rs := requiredSize b
  decide (rs > 0) && decide (b.size ≥ rs)

/-- The function `shift(Buffer&)`: shift the content left by one data packet.  `rs` and
`extra` are `uint32_t` in the source; `b.write(buf + rs, extra)` copies `extra` bytes from
offset `rs` of the old content. -/
def shift (b : Buffer) : Buffer :=
  if isComplete b then
    let rs : Nat := toUInt32 (requiredSize b)
    let extra : Nat := toUInt32 (b.size - (rs : Int))
    let buf := b
    let b := b.reset
    if extra ≠ 0 then b.write ((buf.drop rs).take extra) else b
  else b

/-- The function `shift(Buffer&, int len)`: shift the content left by `len` bytes.  `len`
ranges over the non-negative `int`s: the one caller, `sendAll`, passes the byte count that a
successful `::send` returned. -/
def shiftN (b : Buffer) (len : Nat) : Buffer :=
  if (len : Int) ≤ b.size then
    let extra : Int := b.size - (len : Int)
    let buf := b
    let b := b.reset
    if extra ≠ 0 then b.write ((buf.drop len).take extra.toNat) else b
  else b

/-! ## Faults -/

/-- Ways in which a run of the model stops being an execution the source defines. -/
inductive Fault where
  /-- The loop bound handed to the model was used up. -/
  | outOfFuel
  /-- A read past the end of a buffer (`Buffer(ptr, len)` with `len` beyond the data). -/
  | outOfBounds
  /-- The pointer `comm` was dereferenced while `NULL`. -/
  | nullDeref
  deriving DecidableEq, Repr

deriving instance DecidableEq for Except

/-! ## Receiver worker (`AsyncSocket::recvHandler`, lines 776-807) -/

/-- The expression `new Buffer(b.get_buf() + sizeof(int), requiredSize(b) - sizeof(int))`.
The length argument is an `unsigned int`, so `requiredSize(b) - 4` is taken modulo `2^32`;
copying more bytes than are buffered after the prefix is a read out of bounds. -/
def recvHandler.payload (b : Buffer) : Except Fault Buffer :=
  let len : Nat := toUInt32 (requiredSize b - 4)
  if 4 + len ≤ b.length then .ok ((b.drop 4).take len) else .error .outOfBounds

/-- The loop `while (isComplete(b)) { data = new Buffer(..); drt->queueBuffer(data); shift(b); }`.
`queued` lists the buffers handed to `queueBuffer` so far, oldest first. -/
def recvHandler.extract : Nat → Buffer → List Buffer → Except Fault (List Buffer × Buffer)
  | 0, _, _ => .error .outOfFuel
  | fuel + 1, b, queued =>
    if isComplete b then
      match recvHandler.payload b with
      | .error e => .error e
      | .ok data => recvHandler.extract fuel (shift b) (queued ++ [data])
    else .ok (queued, b)

/-- The body of the worker loop after a read that returned `chunk` (`len > 0` bytes):
`if (sock->d) { b.write(buf, len); while (isComplete(b)) ... }`.  `d` says whether the
socket has a Dispatcher.  The state is the pair (buffers queued so far, accumulation buffer).
The extraction loop gets one unit of fuel per buffered byte plus one, which is always enough
(`recvHandler.extract_fuel`). -/
def recvHandler.onRead (d : Bool) (st : List Buffer × Buffer) (chunk : List Byte) :
    Except Fault (List Buffer × Buffer) :=
  if d then
    let b := st.2.write chunk
    recvHandler.extract (b.length + 1) b st.1
  else .ok st

/-- The worker loop over a sequence of successful reads, one `onRead` per chunk. -/
def recvHandler.onReads (d : Bool) : List (List Byte) → List Buffer × Buffer →
    Except Fault (List Buffer × Buffer)
  | [], st => .ok st
  | chunk :: rest, st =>
    match recvHandler.onRead d st chunk with
    | .error e => .error e
    | .ok st1 => recvHandler.onReads d rest st1

/-! ## Dispatch queue (`BufferList`, lines 510-544) -/

/-- The singly linked list `BufferList` (`head`, `tail`, nodes linked by `next`) as the
sequence of queued buffers from `head` to `tail`; `head` is `NULL` exactly when the sequence
is empty, and so is `tail`. -/
abbrev BufferList := List Buffer

/-- The method `BufferList::dequeue`: pop the head, or `NULL` (`none`) when `head` is `NULL`. -/
def BufferList.dequeue (l : BufferList) : Option Buffer × BufferList :=
  match l with
  | [] => (none, [])
  | b :: rest => (some b, rest)

/-- The method `BufferList::enqueue`: link the new node behind `tail` when there is one,
otherwise make it the head and report `first = true`. -/
def BufferList.enqueue (l : BufferList) (b : Buffer) : BufferList × Bool :=
  match l.getLast? with
  | some _ => (l ++ [b], false)
  | none => ([b], true)

/-- The method `disp_request_t::queueBuffer`: enqueue, and request a drain through
`execute_sync` (second component) when `enqueue` reported the first element. -/
def queueBuffer (l : BufferList) (b : Buffer) : BufferList × Bool :=
  let r := BufferList.enqueue l b
  if r.2 then (r.1, true) else (r.1, false)

/-- A run of `enqueue` calls with no `dequeue` in between: final queue and the results
returned, in call order. -/
def BufferList.enqueueAll : BufferList → List Buffer → BufferList × List Bool
  | l, [] => (l, [])
  | l, b :: bs =>
    let r := BufferList.enqueue l b
    let rest := BufferList.enqueueAll r.1 bs
    (rest.1, r.2 :: rest.2)

/-! ## Connection (`AsyncSocket`, lines 600-676) -/

/-- The constant `INVALID_SOCKET` (`-1`, line 84). -/
def INVALID_SOCKET : Int := -1

/-- The constant `SOCKET_ERROR` (`-1`, line 85). -/
def SOCKET_ERROR : Int := -1

/-- Lines written with `msg(...)`. -/
inductive Msg where
  | cleanupCalled
  | syncOnThreadExit
  | sendFailed (len size sockerr : Int)
  | writingToChangeCache
  | failedToCreateHandler
  | failedToCreateSocket
  deriving DecidableEq, Repr

/-- The data members `conn` and `thread` of an `AsyncSocket`, and whether its Dispatcher `d`
is non-null. `thread = 0` means no worker thread. -/
structure AsyncSocket where
  conn : Int
  thread : Nat
  d : Bool
  deriving DecidableEq, Repr

/-- What the functions of this file do to the rest of the process: the offline cache
`changeCache`, the send counters, and the record of the external calls made. -/
structure World where
  /-- The global `changeCache` (`NULL` is `none`). -/
  changeCache : Option Buffer
  /-- One entry per executed `stats[1][command]++`, with the command. -/
  statsSent : List Int
  /-- Lines written with `msg`. -/
  msgs : List Msg
  /-- Number of `warning(...)` dialogs shown. -/
  warnings : Nat
  /-- Sockets passed to `closesocket`. -/
  closed : List Int
  /-- Threads waited for with `pthread_join` / `WaitForSingleObject`. -/
  joined : List Nat
  /-- The bytes offered to `::send`, one entry per call. -/
  offered : List Buffer
  /-- The bytes the transport accepted, in order. -/
  wire : List Byte
  deriving DecidableEq, Repr

/-- The constructor `AsyncSocket::AsyncSocket(Dispatcher)`. -/
def AsyncSocket.new (disp : Bool) : AsyncSocket :=
  { conn := INVALID_SOCKET, thread := 0, d := disp }

/-- The method `AsyncSocket::isConnected`. -/
def AsyncSocket.isConnected (s : AsyncSocket) : Bool := decide (s.conn ≠ INVALID_SOCKET)

/-- The method `AsyncSocket::cleanup(bool warn)`. -/
def AsyncSocket.cleanup (s : AsyncSocket) (warn : Bool) (w : World) : AsyncSocket × World :=
  let w := { w with msgs := w.msgs ++ [Msg.cleanupCalled] }
  if s.conn ≠ INVALID_SOCKET then
    let w := { w with closed := w.closed ++ [s.conn] }
    let s := { s with conn := INVALID_SOCKET }
    let sw : AsyncSocket × World :=
      if s.thread ≠ 0 then
        ({ s with thread := 0 },
         { w with msgs := w.msgs ++ [Msg.syncOnThreadExit], joined := w.joined ++ [s.thread] })
      else (s, w)
    if warn then (sw.1, { sw.2 with warnings := sw.2.warnings + 1 }) else sw
  else (s, w)

/-- The class invariant of `AsyncSocket`: a socket without a connection has no worker
thread.  The constructor establishes it; `connect` on a fresh object, `cleanup` and `sendAll`
keep it (`inv_new`, `inv_connect`, `inv_cleanup`, `inv_sendAll`). -/
def AsyncSocket.Inv (s : AsyncSocket) : Prop := s.conn = INVALID_SOCKET → s.thread = 0

instance (s : AsyncSocket) : Decidable s.Inv := by
  unfold AsyncSocket.Inv
  infer_instance

/-- The free function `cleanup(bool warn)` (lines 647-653) on the global `comm`. -/
def cleanup (warn : Bool) (comm : Option AsyncSocket) (w : World) : Option AsyncSocket × World :=
  match comm with
  | some s => (none, (s.cleanup warn w).2)
  | none => (none, w)

/-- The method `AsyncSocket::close`. -/
def AsyncSocket.close (s : AsyncSocket) (w : World) : Bool × AsyncSocket × World :=
  (true, s.cleanup false w)

/-- The method `AsyncSocket::connect`.  `sock` is what the socket-level
`connect_to(host, port)` (lines 214-262) returned; `created` is `some t` when the worker
thread `t` was created and `none` when `pthread_create` / `CreateThread` failed.  The trace
starts after the socket-level call: the log lines of that call and its `closesocket` of a
socket whose `connect` was refused are not recorded. -/
def AsyncSocket.connect (s : AsyncSocket) (sock : Int) (created : Option Nat) (w : World) :
    Bool × AsyncSocket × World :=
  let s := { s with conn := sock }
  if s.conn ≠ INVALID_SOCKET then
    match created with
    | some t => (AsyncSocket.isConnected { s with thread := t }, { s with thread := t }, w)
    | none =>
      let w := { w with msgs := w.msgs ++ [Msg.failedToCreateHandler] }
      let sw := s.cleanup false w
      (sw.1.isConnected, sw)
  else
    (s.isConnected, s, { w with msgs := w.msgs ++ [Msg.failedToCreateSocket] })

/-! ## Drain (`disp_request_t::execute`, lines 549-567) -/

/-- The external `Dispatcher` capability as an oracle: `disp i b` is what the Dispatcher
returns when its `i`-th invocation (counting from `0`) is on buffer `b`. -/
abbrev Dispatcher := Nat → Buffer → Bool

/-- State of a drain: the global `comm`, the world, the request's queue `buffers`, the
buffers the Dispatcher has been invoked on (oldest first) and the buffers deleted. -/
structure DrainState where
  comm : Option AsyncSocket
  world : World
  buffers : BufferList
  dispatched : List Buffer
  deleted : List Buffer
  deriving DecidableEq, Repr

/-- The loop of `disp_request_t::execute`, by recursion on the queue: the two cases are the
two results of `buffers.dequeue()` (`BufferList.dequeue`).  On a `false` from the Dispatcher
the loop calls `comm->cleanup(true)` and breaks, before `delete b`. -/
def executeLoop (disp : Dispatcher) (comm : Option AsyncSocket) (w : World) :
    BufferList → List Buffer → List Buffer → Except Fault DrainState
  | [], dispatched, deleted =>
    .ok { comm := comm, world := w, buffers := [], dispatched := dispatched, deleted := deleted }
  | b :: rest, dispatched, deleted =>
    if !disp dispatched.length b then
      match comm with
      | none => .error .nullDeref
      | some s =>
        let sw := s.cleanup true w
        .ok { comm := some sw.1, world := sw.2, buffers := rest,
              dispatched := dispatched ++ [b], deleted := deleted }
    else
      executeLoop disp comm w rest (dispatched ++ [b]) (deleted ++ [b])

/-- The method `disp_request_t::execute`. -/
def execute (disp : Dispatcher) (st : DrainState) : Except Fault DrainState :=
  executeLoop disp st.comm st.world st.buffers st.dispatched st.deleted

/-! ## Sender (`AsyncSocket::sendAll`, `AsyncSocket::send`, lines 678-723) -/

/-- What one call of `::send` reports: the number of bytes accepted, or `SOCKET_ERROR` with
the error code left in `errno` / `WSAGetLastError()`. -/
inductive SendResult where
  | sent (n : Nat)
  | error (errno : Int)
  deriving DecidableEq, Repr

/-- The error code `EAGAIN` (`EWOULDBLOCK`) of a transient write block. -/
def EAGAIN : Int := 11

/-- The transport as an oracle: `net i offered` is the result of the `i`-th call of `::send`
(counting from `0`) when it is offered the bytes `offered`. -/
abbrev Transport := Nat → Buffer → SendResult

/-- The `int` that `::send` returns. -/
def SendResult.len : SendResult → Int
  | .sent n => (n : Int)
  | .error _ => SOCKET_ERROR

/-- The bytes of `offered` that a call with this result put on the wire. -/
def SendResult.accepted (r : SendResult) (offered : Buffer) : List Byte :=
  match r with
  | .sent n => offered.take n
  | .error _ => []

/-- Result of `sendAll` / `send`: the return value, the socket, the world and the buffer
argument as the call leaves it. -/
structure SendOutcome where
  ret : Bool
  sock : AsyncSocket
  world : World
  b : Buffer
  deriving DecidableEq, Repr

/-- The method `AsyncSocket::sendAll`.  One unit of fuel per iteration of `while (true)`. -/
def AsyncSocket.sendAll (net : Transport) :
    Nat → AsyncSocket → World → Buffer → Except Fault SendOutcome
  | 0, _, _, _ => .error .outOfFuel
  | fuel + 1, s, w, b =>
    let r := net w.offered.length b
    let len : Int := r.len
    let w := { w with offered := w.offered ++ [b], wire := w.wire ++ r.accepted b }
    if len = b.size then
      .ok { ret := true, sock := s, world := w, b := b }
    else if len = SOCKET_ERROR then
      let sockerr : Int := match r with
        | .error e => e
        | .sent _ => 0
      let sw := s.cleanup false w
      let w := { sw.2 with msgs := sw.2.msgs ++ [Msg.sendFailed len b.size sockerr] }
      .ok { ret := false, sock := sw.1, world := w, b := b }
    else
      let b := if len ≠ b.size then shiftN b len.toNat else b
      AsyncSocket.sendAll net fuel s w b

/-- Parts of the plugin that `send` uses and that are declared outside `idanet.cpp`: the
constant `MSG_IDA_MAX` and `Buffer::readInt()` applied to the payload. -/
structure Collaborators where
  MSG_IDA_MAX : Int
  readInt : Buffer → Int

/-- The value `b.size() + sizeof(int)` converted to `int`. -/
def sizePlusInt (b : Buffer) : Int := toInt32 (toUInt32 (b.size + 4))

/-- The buffer `out` that `AsyncSocket::send` builds for a payload `b` on a connected socket
(lines 715-717 and 722): `Buffer out; out.writeInt(sz); out << b;`. -/
def AsyncSocket.send.out (b : Buffer) : Buffer :=
  let out : Buffer := []
  let sz : Int := sizePlusInt b
  let out := out.writeInt sz
  out.append b

/-- The method `AsyncSocket::send`.  The write loop runs on the local buffer `out`; the
argument `b` is returned as it was passed. -/
def AsyncSocket.send (ext : Collaborators) (net : Transport) (fuel : Nat) (s : AsyncSocket) (w : World)
    (b : Buffer) : Except Fault SendOutcome :=
  if !s.isConnected then
    match w.changeCache with
    | some cache =>
      let w := { w with msgs := w.msgs ++ [Msg.writingToChangeCache] }
      let cache := cache.writeInt (sizePlusInt b)
      let cache := cache.append b
      .ok { ret := true, sock := s, world := { w with changeCache := some cache }, b := b }
    | none => .ok { ret := true, sock := s, world := w, b := b }
  else
    let out : Buffer := []
    let sz : Int := sizePlusInt b
    let out := out.writeInt sz
    let command : Int := ext.readInt b
    let w := if command ≥ 0 ∧ command ≤ ext.MSG_IDA_MAX then
        { w with statsSent := w.statsSent ++ [command] } else w
    let out := out.append b
    match AsyncSocket.sendAll net fuel s w out with
    | .error e => .error e
    | .ok r => .ok { r with b := b }

/-- A transport script for `sendAll`: starting at call number `i` with the bytes `b` to send,
the successive `::send` calls accept `ns[0]`, `ns[1]`, ... bytes, each a short write (a count
other than the number of bytes offered), the next call being offered what `shiftN` leaves. -/
def shortWrites (net : Transport) : Nat → Buffer → List Nat → Prop
  | _, _, [] => True
  | i, b, n :: ns => net i b = .sent n ∧ n ≠ b.length ∧ shortWrites net (i + 1) (shiftN b n) ns

/-- Whether a script consists of short writes can be computed. -/
def shortWrites.decide (net : Transport) : (ns : List Nat) → (i : Nat) → (b : Buffer) →
    Decidable (shortWrites net i b ns)
  | [], _, _ => isTrue trivial
  | n :: ns, i, b =>
    have : Decidable (shortWrites net (i + 1) (shiftN b n) ns) :=
      shortWrites.decide net ns (i + 1) (shiftN b n)
    (inferInstance : Decidable (net i b = .sent n ∧ n ≠ b.length ∧
      shortWrites net (i + 1) (shiftN b n) ns))

instance (net : Transport) (i : Nat) (b : Buffer) (ns : List Nat) :
    Decidable (shortWrites net i b ns) := shortWrites.decide net ns i b

/-- The bytes still to send after the short writes `ns`. -/
def remainderAfter : Buffer → List Nat → Buffer
  | b, [] => b
  | b, n :: ns => remainderAfter (shiftN b n) ns

/-! ## Module-level interface (lines 587-598 and 811-831) -/

/-- The error code `EPIPE` of a write on a connection the peer has closed. -/
def EPIPE : Int := 32

/-- The free function `connect_to(host, port, d)` (lines 587-594): `comm` is overwritten with
a new `AsyncSocket`, which is deleted again when its `connect` fails.  `sock` and `created`
are the outcomes of the socket-level `connect_to(host, port)` and of the thread creation
inside `AsyncSocket::connect`. -/
def connect_to (disp : Bool) (sock : Int) (created : Option Nat) (_comm : Option AsyncSocket)
    (w : World) : Bool × Option AsyncSocket × World :=
  let c := AsyncSocket.new disp
  let r := c.connect sock created w
  let comm : Option AsyncSocket := if !r.1 then none else some r.2.1
  (comm.isSome, comm, r.2.2)

/-- The free function `is_connected()` (lines 596-598): `return comm != NULL`. -/
def is_connected (comm : Option AsyncSocket) : Bool := comm.isSome

/-- Result of a module-level send: the `int` returned, the global `comm`, the world and the
buffer argument as the call leaves it. -/
structure CallOutcome where
  ret : Int
  comm : Option AsyncSocket
  world : World
  b : Buffer
  deriving DecidableEq, Repr

/-- The free function `send_all(Buffer&)` (lines 811-816). -/
def send_all (net : Transport) (fuel : Nat) (comm : Option AsyncSocket) (w : World)
    (b : Buffer) : Except Fault CallOutcome :=
  match comm with
  | some s =>
    match s.sendAll net fuel w b with
    | .error e => .error e
    | .ok r => .ok { ret := if r.ret then 1 else 0, comm := some r.sock, world := r.world,
                     b := r.b }
  | none => .ok { ret := 0, comm := none, world := w, b := b }

/-- The free function `send_data(Buffer&)` (lines 818-831). -/
def send_data (ext : Collaborators) (net : Transport) (fuel : Nat) (comm : Option AsyncSocket)
    (w : World) (b : Buffer) : Except Fault CallOutcome :=
  match comm with
  | some s =>
    match s.send ext net fuel w b with
    | .error e => .error e
    | .ok r => .ok { ret := if r.ret then 1 else 0, comm := some r.sock, world := r.world,
                     b := r.b }
  | none =>
    match w.changeCache with
    | some cache =>
      let cache := cache.writeInt (sizePlusInt b)
      let cache := cache.append b
      .ok { ret := b.size, comm := none, world := { w with changeCache := some cache }, b := b }
    | none => .ok { ret := 0, comm := none, world := w, b := b }

/-- The module-level state: the global `comm` and the world. -/
structure Plugin where
  comm : Option AsyncSocket
  world : World
  deriving DecidableEq, Repr

/-- The initial state: `comm` is `NULL`. -/
def Plugin.init (w : World) : Plugin := { comm := none, world := w }

/-- One call of a module-level operation, with the outcomes of the external calls it makes:
for `execute`, the Dispatcher and the frames queued at the time of the drain. -/
inductive Op where
  | connect_to (disp : Bool) (sock : Int) (created : Option Nat)
  | send_data (ext : Collaborators) (net : Transport) (fuel : Nat) (b : Buffer)
  | send_all (net : Transport) (fuel : Nat) (b : Buffer)
  | execute (disp : Dispatcher) (buffers : BufferList)
  | cleanup (warn : Bool)

/-- The state after one operation. -/
def Plugin.step (st : Plugin) : Op → Except Fault Plugin
  | .connect_to disp sock created =>
    let r := Idanet.connect_to disp sock created st.comm st.world
    .ok { comm := r.2.1, world := r.2.2 }
  | .send_data ext net fuel b =>
    match Idanet.send_data ext net fuel st.comm st.world b with
    | .error e => .error e
    | .ok r => .ok { comm := r.comm, world := r.world }
  | .send_all net fuel b =>
    match Idanet.send_all net fuel st.comm st.world b with
    | .error e => .error e
    | .ok r => .ok { comm := r.comm, world := r.world }
  | .execute disp buffers =>
    match Idanet.execute disp { comm := st.comm, world := st.world, buffers := buffers,
                                dispatched := [], deleted := [] } with
    | .error e => .error e
    | .ok r => .ok { comm := r.comm, world := r.world }
  | .cleanup warn =>
    let r := Idanet.cleanup warn st.comm st.world
    .ok { comm := r.1, world := r.2 }

/-- The state after a sequence of operations, first operation first. -/
def Plugin.run : List Op → Plugin → Except Fault Plugin
  | [], st => .ok st
  | op :: rest, st =>
    match st.step op with
    | .error e => .error e
    | .ok st1 => Plugin.run rest st1

/-- What the claim about `is_connected()` compares: the value of `is_connected()` and, when
`comm` is not `NULL`, the value of `comm->isConnected()`. -/
def Plugin.view (st : Plugin) : Bool × Option Bool :=
  (is_connected st.comm, st.comm.map AsyncSocket.isConnected)

/-! ## Arithmetic of the 32-bit conversions -/

theorem be32_length (n : Nat) : (be32 n).length = 4 := rfl

theorem be32_mod (n : Nat) : be32 (n % 2 ^ 32) = be32 n := by
  simp only [be32, List.cons.injEq, Fin.mk.injEq, and_true]
  refine ⟨?_, ?_, ?_, ?_⟩ <;> omega

theorem qntohlFront_be32_append (n : Nat) (rest : List Byte) :
    qntohlFront (be32 n ++ rest) = n % 2 ^ 32 := by
  simp only [qntohlFront, be32, List.cons_append, List.nil_append, List.getD_cons_zero,
    List.getD_cons_succ]
  omega

theorem toInt32_of_lt {n : Nat} (h : n < 2 ^ 31) : toInt32 n = (n : Int) := by
  unfold toInt32
  have h1 : n % 2 ^ 32 = n := Nat.mod_eq_of_lt (by omega)
  rw [h1, if_pos h]

theorem toInt32_bounds (n : Nat) : -2 ^ 31 ≤ toInt32 n ∧ toInt32 n < 2 ^ 31 := by
  unfold toInt32
  have h : n % 2 ^ 32 < 2 ^ 32 := Nat.mod_lt _ (by norm_num)
  split <;> constructor <;> omega

theorem toUInt32_natCast (n : Nat) : toUInt32 (n : Int) = n % 2 ^ 32 := by
  unfold toUInt32
  omega

theorem toUInt32_toInt32 (n : Nat) : toUInt32 (toInt32 n) = n % 2 ^ 32 := by
  unfold toUInt32 toInt32
  have h : n % 2 ^ 32 < 2 ^ 32 := Nat.mod_lt _ (by norm_num)
  split <;> omega

/-! ## The codec on framed bytes -/

theorem send_out_eq (P : Buffer) : AsyncSocket.send.out P = be32 (P.length + 4) ++ P := by
  simp only [AsyncSocket.send.out, Buffer.writeInt, Buffer.write, Buffer.append, sizePlusInt,
    Buffer.size, List.nil_append]
  have h : ((P.length : Int) + 4) = ((P.length + 4 : Nat) : Int) := by push_cast; rfl
  rw [h, toUInt32_natCast, toUInt32_toInt32, be32_mod, be32_mod]

theorem requiredSize_be32_append (n : Nat) (rest : List Byte) :
    requiredSize (be32 n ++ rest) = toInt32 n := by
  have hlen : (4 : Int) ≤ Buffer.size (be32 n ++ rest) := by
    simp only [Buffer.size, List.length_append, be32_length]
    omega
  unfold requiredSize
  rw [if_pos hlen, qntohlFront_be32_append]
  unfold toInt32
  simp only [Nat.mod_mod]

theorem requiredSize_short {b : Buffer} (h : b.length < 4) : requiredSize b = -1 := by
  unfold requiredSize Buffer.size
  rw [if_neg (by omega)]

theorem isComplete_iff (b : Buffer) :
    isComplete b = true ↔ 0 < requiredSize b ∧ requiredSize b ≤ b.size := by
  simp [isComplete]

theorem isComplete_eq_false_iff (b : Buffer) :
    isComplete b = false ↔ ¬ (0 < requiredSize b ∧ requiredSize b ≤ b.size) := by
  rw [← isComplete_iff]
  simp

/-- A frame followed by further bytes: the codec sees a complete packet. -/
theorem isComplete_frame (P rest : List Byte) (hP : P.length + 4 < 2 ^ 31) :
    isComplete (be32 (P.length + 4) ++ P ++ rest) = true := by
  rw [isComplete_iff, List.append_assoc, requiredSize_be32_append, toInt32_of_lt hP]
  simp only [Buffer.size, List.length_append, be32_length]
  omega

theorem payload_frame (P rest : List Byte) (hP : P.length + 4 < 2 ^ 31) :
    recvHandler.payload (be32 (P.length + 4) ++ P ++ rest) = .ok P := by
  have hrs : requiredSize (be32 (P.length + 4) ++ P ++ rest) = ((P.length + 4 : Nat) : Int) := by
    rw [List.append_assoc, requiredSize_be32_append, toInt32_of_lt hP]
  have hlen : toUInt32 (((P.length + 4 : Nat) : Int) - 4) = P.length := by
    unfold toUInt32
    omega
  unfold recvHandler.payload
  simp only [hrs, hlen]
  rw [if_pos (by simp only [List.length_append, be32_length]; omega)]
  rw [List.append_assoc, List.drop_left' (be32_length _), List.take_left']
  rfl

theorem shift_frame (P rest : List Byte) (hP : P.length + 4 < 2 ^ 31)
    (hrest : rest.length < 2 ^ 32) :
    shift (be32 (P.length + 4) ++ P ++ rest) = rest := by
  have hrs : requiredSize (be32 (P.length + 4) ++ P ++ rest) = ((P.length + 4 : Nat) : Int) := by
    rw [List.append_assoc, requiredSize_be32_append, toInt32_of_lt hP]
  have h1 : toUInt32 ((P.length + 4 : Nat) : Int) = P.length + 4 := by
    rw [toUInt32_natCast]
    exact Nat.mod_eq_of_lt (by omega)
  have h2 : toUInt32 (Buffer.size (be32 (P.length + 4) ++ P ++ rest)
      - ((P.length + 4 : Nat) : Int)) = rest.length := by
    simp only [Buffer.size, List.length_append, be32_length]
    unfold toUInt32
    omega
  unfold shift
  rw [if_pos (isComplete_frame P rest hP)]
  simp only [hrs, h1, h2, Buffer.reset, Buffer.write, List.nil_append]
  have hd : List.drop (P.length + 4) (be32 (P.length + 4) ++ P ++ rest) = rest := by
    apply List.drop_left'
    simp only [List.length_append, be32_length]
    omega
  rw [hd, List.take_length]
  by_cases h : rest.length = 0
  · simp [h, List.length_eq_zero.mp h]
  · simp [h]

/-! ## The extraction loop -/

theorem extract_incomplete (fuel : Nat) (b : Buffer) (q : List Buffer)
    (h : isComplete b = false) : recvHandler.extract (fuel + 1) b q = .ok (q, b) := by
  simp [recvHandler.extract, h]

theorem extract_frame (fuel : Nat) (P rest : List Byte) (q : List Buffer)
    (hP : P.length + 4 < 2 ^ 31) (hrest : rest.length < 2 ^ 32) :
    recvHandler.extract (fuel + 1) (be32 (P.length + 4) ++ P ++ rest) q
      = recvHandler.extract fuel rest (q ++ [P]) := by
  rw [recvHandler.extract, if_pos (isComplete_frame P rest hP), payload_frame P rest hP,
    shift_frame P rest hP hrest]

theorem isComplete_nil : isComplete [] = false := by decide

theorem shift_length_lt {b : Buffer} (h : isComplete b = true) :
    (shift b).length < b.length := by
  have hc := (isComplete_iff b).mp h
  have hb := toInt32_bounds (qntohlFront b)
  have hrs : requiredSize b < 2 ^ 31 := by
    unfold requiredSize
    split
    · exact hb.2
    · norm_num
  have hsz : Buffer.size b = (b.length : Int) := rfl
  have h1 : toUInt32 (requiredSize b) = (requiredSize b).toNat := by
    unfold toUInt32
    omega
  unfold shift
  rw [if_pos h]
  simp only [Buffer.reset, Buffer.write, List.nil_append, h1]
  split
  · rw [List.length_take, List.length_drop]
    omega
  · simp only [List.length_nil]
    omega

/-- The extraction loop always leaves through its condition or a fault of the source: one
unit of fuel per buffered byte plus one is never used up. -/
theorem recvHandler.extract_fuel (fuel : Nat) : ∀ (b : Buffer) (q : List Buffer),
    b.length < fuel → recvHandler.extract fuel b q ≠ .error .outOfFuel := by
  induction fuel with
  | zero => intro b q h; omega
  | succ k ih =>
    intro b q h
    rw [recvHandler.extract]
    by_cases hc : isComplete b = true
    · rw [if_pos hc]
      cases hp : recvHandler.payload b with
      | error e =>
        simp only [recvHandler.payload] at hp
        split at hp
        · cases hp
        · cases hp
          simp
      | ok data =>
        simp only
        apply ih
        have := shift_length_lt hc
        omega
    · rw [if_neg hc]
      simp

/-- Bytes that are a proper initial part of a frame never look complete. -/
theorem isComplete_proper_initial (P pre suf : List Byte) (hP : P.length + 4 < 2 ^ 31)
    (h : pre ++ suf = be32 (P.length + 4) ++ P) (hs : suf ≠ []) : isComplete pre = false := by
  rw [isComplete_eq_false_iff]
  by_cases h4 : pre.length < 4
  · rw [requiredSize_short h4]
    omega
  · have hsl : 0 < suf.length := List.length_pos.mpr hs
    have hlen : pre.length + suf.length = 4 + P.length := by
      have := congrArg List.length h
      simpa only [List.length_append, be32_length] using this
    obtain ⟨c, hc⟩ : ∃ c, pre = be32 (P.length + 4) ++ c := by
      rcases List.append_eq_append_iff.mp h with ⟨a, ha, _⟩ | ⟨c, hc, _⟩
      · have hla := congrArg List.length ha
        simp only [List.length_append, be32_length] at hla
        have ha0 : a = [] := List.length_eq_zero.mp (by omega)
        refine ⟨[], ?_⟩
        rw [ha, ha0]
        simp
      · exact ⟨c, hc⟩
    have hcl : pre.length = 4 + c.length := by
      rw [hc, List.length_append, be32_length]
    rw [hc, requiredSize_be32_append, toInt32_of_lt hP]
    simp only [Buffer.size, List.length_append, be32_length]
    omega

theorem onRead_nil_nil (q : List Buffer) :
    recvHandler.onRead true (q, []) [] = .ok (q, []) := by
  have h := extract_incomplete 0 [] q isComplete_nil
  simpa only [recvHandler.onRead, Buffer.write, if_true, List.append_nil, List.length_nil,
    Nat.zero_add] using h

theorem onReads_all_nil (q : List Buffer) : ∀ chunks : List (List Byte),
    chunks.flatten = [] → recvHandler.onReads true chunks (q, []) = .ok (q, []) := by
  intro chunks
  induction chunks with
  | nil => intro _; rfl
  | cons c cs ih =>
    intro h
    rw [List.flatten_cons, List.append_eq_nil] at h
    rw [recvHandler.onReads, h.1, onRead_nil_nil]
    exact ih h.2

theorem onRead_completes_frame (P pre c : List Byte) (hP : P.length + 4 < 2 ^ 31)
    (h : pre ++ c = be32 (P.length + 4) ++ P) :
    recvHandler.onRead true ([], pre) c = .ok ([P], []) := by
  have hx := extract_frame ((be32 (P.length + 4) ++ P).length) P [] [] hP (by norm_num)
  simp only [List.append_nil] at hx
  simp only [recvHandler.onRead, Buffer.write, if_true, h]
  rw [hx]
  have hl : (be32 (P.length + 4) ++ P).length = (3 + P.length) + 1 := by
    rw [List.length_append, be32_length]
    omega
  rw [hl, extract_incomplete _ _ _ isComplete_nil]
  rfl

/-- Feeding the rest of a frame, chunk by chunk, to a receiver that has accumulated a proper
initial part of it queues the payload once and empties the accumulation buffer. -/
theorem onReads_rest_of_frame (P : List Byte) (hP : P.length + 4 < 2 ^ 31) :
    ∀ (chunks : List (List Byte)) (pre : List Byte),
      pre ++ chunks.flatten = be32 (P.length + 4) ++ P → chunks.flatten ≠ [] →
      recvHandler.onReads true chunks ([], pre) = .ok ([P], []) := by
  intro chunks
  induction chunks with
  | nil =>
    intro pre _ hne
    exact absurd rfl hne
  | cons c cs ih =>
    intro pre h hne
    rw [List.flatten_cons] at h hne
    rw [recvHandler.onReads]
    by_cases hcs : cs.flatten = []
    · rw [hcs, List.append_nil] at h
      rw [onRead_completes_frame P pre c hP h]
      exact onReads_all_nil [P] cs hcs
    · rw [← List.append_assoc] at h
      have hinc := isComplete_proper_initial P (pre ++ c) cs.flatten hP h hcs
      have hstep : recvHandler.onRead true ([], pre) c = .ok ([], pre ++ c) := by
        simp only [recvHandler.onRead, Buffer.write, if_true]
        exact extract_incomplete _ _ _ hinc
      rw [hstep]
      exact ih (pre ++ c) h hcs

/-- The extraction loop on a concatenation of frames queues the payloads in order. -/
theorem extract_frames : ∀ (Ps : List Buffer) (fuel : Nat) (q : List Buffer),
    (∀ P ∈ Ps, P.length + 4 < 2 ^ 31) →
    ((Ps.map AsyncSocket.send.out).flatten).length < 2 ^ 31 →
    ((Ps.map AsyncSocket.send.out).flatten).length < fuel →
    recvHandler.extract fuel ((Ps.map AsyncSocket.send.out).flatten) q = .ok (q ++ Ps, []) := by
  intro Ps
  induction Ps with
  | nil =>
    intro fuel q _ _ hf
    obtain ⟨k, rfl⟩ : ∃ k, fuel = k + 1 := ⟨fuel - 1, by omega⟩
    simp only [List.map_nil, List.flatten_nil, List.append_nil]
    exact extract_incomplete k [] q isComplete_nil
  | cons P Ps ih =>
    intro fuel q hP hlen hf
    obtain ⟨k, rfl⟩ : ∃ k, fuel = k + 1 := ⟨fuel - 1, by omega⟩
    have hP0 : P.length + 4 < 2 ^ 31 := hP P (List.mem_cons_self _ _)
    simp only [List.map_cons, List.flatten_cons, send_out_eq P, List.length_append,
      be32_length] at hlen hf ⊢
    rw [extract_frame k P _ q hP0 (by omega)]
    rw [ih k (q ++ [P]) (fun R hR => hP R (List.mem_cons_of_mem _ hR)) (by omega) (by omega)]
    simp

/-- A declared length of `2^31` or more reads back as a negative `int`, so the frame is never
seen as complete. -/
theorem isComplete_out_of_long (P : List Byte) (h1 : 2 ^ 31 ≤ P.length + 4)
    (h2 : P.length + 4 < 2 ^ 32) : isComplete (AsyncSocket.send.out P) = false := by
  rw [isComplete_eq_false_iff, send_out_eq, requiredSize_be32_append]
  have hm : (P.length + 4) % 2 ^ 32 = P.length + 4 := Nat.mod_eq_of_lt h2
  unfold toInt32
  rw [hm, if_neg (by omega)]
  omega

/-- A first read whose bytes do not look complete is kept whole and nothing is queued. -/
theorem onRead_fresh_incomplete (chunk : List Byte) (h : isComplete chunk = false) :
    recvHandler.onRead true ([], []) chunk = .ok ([], chunk) := by
  simp only [recvHandler.onRead, Buffer.write, if_true, List.nil_append]
  exact extract_incomplete _ _ _ h

theorem be32_qntohlFront (b : Buffer) (h : 4 ≤ b.length) : be32 (qntohlFront b) = b.take 4 := by
  rcases b with _ | ⟨b0, _ | ⟨b1, _ | ⟨b2, _ | ⟨b3, rest⟩⟩⟩⟩
  · simp at h
  · simp at h
  · simp at h
  · simp at h
  · have h0 := b0.isLt
    have h1 := b1.isLt
    have h2 := b2.isLt
    have h3 := b3.isLt
    simp only [be32, qntohlFront, List.getD_cons_zero, List.getD_cons_succ, List.take_succ_cons,
      List.take_zero, List.cons.injEq, and_true, Fin.ext_iff]
    refine ⟨?_, ?_, ?_, ?_⟩ <;> omega

theorem qntohlFront_lt (b : Buffer) : qntohlFront b < 2 ^ 32 := by
  have h0 := (b.getD 0 0).isLt
  have h1 := (b.getD 1 0).isLt
  have h2 := (b.getD 2 0).isLt
  have h3 := (b.getD 3 0).isLt
  unfold qntohlFront
  omega

/-! ## Queue, drain and teardown lemmas -/

theorem enqueue_eq (q : BufferList) (b : Buffer) :
    BufferList.enqueue q b = (q ++ [b], decide (q = [])) := by
  unfold BufferList.enqueue
  cases h : q.getLast? with
  | none =>
    have hq : q = [] := List.getLast?_eq_none_iff.mp h
    simp [hq]
  | some x =>
    have hq : q ≠ [] := by
      intro hq
      rw [hq] at h
      simp at h
    simp [hq]

theorem enqueueAll_nonempty : ∀ (bs : List Buffer) (q : BufferList), q ≠ [] →
    BufferList.enqueueAll q bs = (q ++ bs, List.replicate bs.length false) := by
  intro bs
  induction bs with
  | nil => intro q _; simp [BufferList.enqueueAll]
  | cons b bs ih =>
    intro q hq
    have hq1 : q ++ [b] ≠ [] := by simp
    simp only [BufferList.enqueueAll, enqueue_eq, ih (q ++ [b]) hq1, hq, decide_False,
      List.append_assoc, List.singleton_append, List.length_cons, List.replicate_succ]

theorem cleanup_conn (s : AsyncSocket) (warn : Bool) (w : World) :
    (s.cleanup warn w).1.conn = INVALID_SOCKET := by
  unfold AsyncSocket.cleanup
  by_cases hc : s.conn = INVALID_SOCKET
  · simp [hc]
  · by_cases ht : s.thread = 0 <;> cases warn <;> simp [hc, ht]

theorem cleanup_isConnected (s : AsyncSocket) (warn : Bool) (w : World) :
    (s.cleanup warn w).1.isConnected = false := by
  simp [AsyncSocket.isConnected, cleanup_conn]

theorem cleanup_of_invalid (s : AsyncSocket) (warn : Bool) (w : World)
    (h : s.conn = INVALID_SOCKET) :
    s.cleanup warn w = (s, { w with msgs := w.msgs ++ [Msg.cleanupCalled] }) := by
  simp [AsyncSocket.cleanup, h]

theorem cleanup_thread (s : AsyncSocket) (warn : Bool) (w : World) (h : s.Inv) :
    (s.cleanup warn w).1.thread = 0 := by
  unfold AsyncSocket.cleanup
  by_cases hc : s.conn = INVALID_SOCKET
  · simp [hc, h hc]
  · by_cases ht : s.thread = 0 <;> cases warn <;> simp [hc, ht]

theorem inv_new (disp : Bool) : (AsyncSocket.new disp).Inv := fun _ => rfl

theorem inv_cleanup (s : AsyncSocket) (warn : Bool) (w : World) (h : s.Inv) :
    (s.cleanup warn w).1.Inv := fun _ => cleanup_thread s warn w h

theorem inv_connect (s : AsyncSocket) (sock : Int) (created : Option Nat) (w : World)
    (h : s.Inv) (hs : s.conn = INVALID_SOCKET) : (s.connect sock created w).2.1.Inv := by
  unfold AsyncSocket.connect
  by_cases hc : sock = INVALID_SOCKET
  · simp only [hc, ne_eq, not_true_eq_false, if_false]
    intro _
    exact h hs
  · simp only [ne_eq, hc, not_false_eq_true, if_true]
    cases created with
    | some t =>
      intro hx
      exact absurd hx hc
    | none =>
      intro _
      apply cleanup_thread
      intro hx
      exact absurd hx hc

theorem executeLoop_cons_accept (disp : Dispatcher) (comm : Option AsyncSocket) (w : World)
    (b : Buffer) (rest d0 del : List Buffer) (h : disp d0.length b = true) :
    executeLoop disp comm w (b :: rest) d0 del
      = executeLoop disp comm w rest (d0 ++ [b]) (del ++ [b]) := by
  simp [executeLoop, h]

theorem executeLoop_cons_reject (disp : Dispatcher) (s : AsyncSocket) (w : World)
    (b : Buffer) (rest d0 del : List Buffer) (h : disp d0.length b = false) :
    executeLoop disp (some s) w (b :: rest) d0 del
      = .ok { comm := some (s.cleanup true w).1, world := (s.cleanup true w).2,
              buffers := rest, dispatched := d0 ++ [b], deleted := del } := by
  simp [executeLoop, h]

theorem executeLoop_all_accepted (disp : Dispatcher) (comm : Option AsyncSocket) (w : World) :
    ∀ (q : BufferList) (d0 del : List Buffer),
      (∀ i b, q[i]? = some b → disp (d0.length + i) b = true) →
      executeLoop disp comm w q d0 del
        = .ok { comm := comm, world := w, buffers := [], dispatched := d0 ++ q,
                deleted := del ++ q } := by
  intro q
  induction q with
  | nil => intro d0 del _; simp [executeLoop]
  | cons b rest ih =>
    intro d0 del h
    have hb : disp d0.length b = true := by
      have := h 0 b (by simp)
      simpa using this
    rw [executeLoop_cons_accept disp comm w b rest d0 del hb, ih (d0 ++ [b]) (del ++ [b])]
    · simp
    · intro i x hx
      have := h (i + 1) x (by simpa using hx)
      simpa [Nat.add_assoc, Nat.add_comm 1 i] using this

theorem executeLoop_rejected (disp : Dispatcher) (s : AsyncSocket) (w : World) (K : Buffer)
    (post : List Buffer) :
    ∀ (pre : List Buffer) (d0 del : List Buffer),
      (∀ i b, pre[i]? = some b → disp (d0.length + i) b = true) →
      disp (d0.length + pre.length) K = false →
      executeLoop disp (some s) w (pre ++ K :: post) d0 del
        = .ok { comm := some (s.cleanup true w).1, world := (s.cleanup true w).2,
                buffers := post, dispatched := d0 ++ pre ++ [K], deleted := del ++ pre } := by
  intro pre
  induction pre with
  | nil =>
    intro d0 del _ hK
    have hK0 : disp d0.length K = false := by simpa using hK
    rw [List.nil_append, executeLoop_cons_reject disp s w K post d0 del hK0]
    simp
  | cons b rest ih =>
    intro d0 del h hK
    have hb : disp d0.length b = true := by
      have := h 0 b (by simp)
      simpa using this
    rw [List.cons_append, executeLoop_cons_accept disp (some s) w b _ d0 del hb,
      ih (d0 ++ [b]) (del ++ [b])]
    · simp
    · intro i x hx
      have := h (i + 1) x (by simpa using hx)
      simpa [Nat.add_assoc, Nat.add_comm 1 i] using this
    · simpa [Nat.add_assoc, Nat.add_comm 1 rest.length] using hK

/-! ## The reliable write loop -/

theorem shiftN_eq_drop (b : Buffer) (n : Nat) (h : n ≤ b.length) : shiftN b n = b.drop n := by
  unfold shiftN Buffer.size
  rw [if_pos (by omega)]
  simp only [Buffer.reset, Buffer.write, List.nil_append]
  by_cases hn : n = b.length
  · subst hn
    simp
  · have hne : ((b.length : Int) - (n : Int)) ≠ 0 := by omega
    rw [if_pos hne]
    apply List.take_of_length_le
    rw [List.length_drop]
    omega

theorem sendAll_error (net : Transport) (fuel : Nat) (s : AsyncSocket) (w : World) (b : Buffer)
    (e : Int) (h : net w.offered.length b = .error e) :
    AsyncSocket.sendAll net (fuel + 1) s w b
      = .ok { ret := false,
              sock := (s.cleanup false { w with offered := w.offered ++ [b] }).1,
              world := { (s.cleanup false { w with offered := w.offered ++ [b] }).2 with
                msgs := (s.cleanup false { w with offered := w.offered ++ [b] }).2.msgs
                  ++ [Msg.sendFailed SOCKET_ERROR b.size e] },
              b := b } := by
  have hsz : ¬ (SOCKET_ERROR = Buffer.size b) := by
    unfold SOCKET_ERROR Buffer.size
    omega
  simp only [AsyncSocket.sendAll, h, SendResult.len, SendResult.accepted, List.append_nil, hsz,
    if_false, if_true]

theorem sendAll_sent_all (net : Transport) (fuel : Nat) (s : AsyncSocket) (w : World)
    (b : Buffer) (h : net w.offered.length b = .sent b.length) :
    AsyncSocket.sendAll net (fuel + 1) s w b
      = .ok { ret := true, sock := s,
              world := { w with offered := w.offered ++ [b], wire := w.wire ++ b },
              b := b } := by
  simp only [AsyncSocket.sendAll, h, SendResult.len, SendResult.accepted, Buffer.size,
    List.take_length, if_true]

theorem sendAll_sent_part (net : Transport) (fuel : Nat) (s : AsyncSocket) (w : World)
    (b : Buffer) (n : Nat) (h : net w.offered.length b = .sent n) (hn : n ≠ b.length) :
    AsyncSocket.sendAll net (fuel + 1) s w b
      = AsyncSocket.sendAll net fuel s
          { w with offered := w.offered ++ [b], wire := w.wire ++ b.take n } (shiftN b n) := by
  have h1 : ¬ ((n : Int) = Buffer.size b) := by
    unfold Buffer.size
    omega
  have h2 : ¬ ((n : Int) = SOCKET_ERROR) := by
    unfold SOCKET_ERROR
    omega
  simp only [AsyncSocket.sendAll, h, SendResult.len, SendResult.accepted, h1, h2, if_false,
    ne_eq, not_false_eq_true, if_true, Int.toNat_ofNat]

/-- Writes that always succeed and make progress: `sendAll` returns `true` within one
iteration per byte, the accepted bytes are the buffer, and `cleanup` is not called. -/
theorem sendAll_progress (net : Transport)
    (hnet : ∀ i o, ∃ n, net i o = .sent n ∧ n ≤ o.length ∧ (o ≠ [] → 1 ≤ n))
    (s : AsyncSocket) : ∀ (fuel : Nat) (w : World) (b : Buffer), b.length < fuel →
      ∃ r, AsyncSocket.sendAll net fuel s w b = .ok r ∧ r.ret = true ∧ r.sock = s ∧
        r.world.wire = w.wire ++ b ∧ r.world.msgs = w.msgs ∧ r.world.closed = w.closed ∧
        r.world.warnings = w.warnings := by
  intro fuel
  induction fuel with
  | zero => intro w b h; omega
  | succ k ih =>
    intro w b hlen
    obtain ⟨n, hn, hle, hpos⟩ := hnet w.offered.length b
    by_cases hfull : n = b.length
    · rw [hfull] at hn
      rw [sendAll_sent_all net k s w b hn]
      exact ⟨_, rfl, rfl, rfl, rfl, rfl, rfl, rfl⟩
    · have hb : b ≠ [] := by
        intro hb
        rw [hb] at hle
        rw [hb] at hfull
        simp at hle hfull
        exact hfull hle
      have h1 := hpos hb
      rw [sendAll_sent_part net k s w b n hn hfull, shiftN_eq_drop b n hle]
      obtain ⟨r, hr, hret, hsock, hwire, hmsgs, hclosed, hwarn⟩ :=
        ih { w with offered := w.offered ++ [b], wire := w.wire ++ b.take n } (b.drop n)
          (by rw [List.length_drop]; omega)
      refine ⟨r, hr, hret, hsock, ?_, hmsgs, hclosed, hwarn⟩
      rw [hwire]
      simp only [List.append_assoc, List.take_append_drop]

theorem cleanup_msgs (s : AsyncSocket) (warn : Bool) (w : World) :
    ∃ more, (s.cleanup warn w).2.msgs = w.msgs ++ Msg.cleanupCalled :: more := by
  unfold AsyncSocket.cleanup
  by_cases hc : s.conn = INVALID_SOCKET
  · exact ⟨[], by simp [hc]⟩
  · by_cases ht : s.thread = 0
    · exact ⟨[], by cases warn <;> simp [hc, ht]⟩
    · exact ⟨[Msg.syncOnThreadExit], by cases warn <;> simp [hc, ht]⟩

/-- What a returned `sendAll` did: the last `::send` call is the only one that can have
reported an error, the result is `false` exactly when it did, a `false` comes with the
teardown and a `true` without it; the first call was offered the whole buffer. -/
theorem sendAll_outcome (net : Transport) (s : AsyncSocket) :
    ∀ (fuel : Nat) (w : World) (b : Buffer) (r : SendOutcome),
      AsyncSocket.sendAll net fuel s w b = .ok r →
      (∃ offs o, r.world.offered = w.offered ++ offs ++ [o] ∧
        (r.ret = false ↔ ∃ e, net (w.offered.length + offs.length) o = .error e)) ∧
      (∃ rest, r.world.offered = w.offered ++ b :: rest) ∧
      (r.ret = false → r.sock.conn = INVALID_SOCKET ∧
        ∃ more, r.world.msgs = w.msgs ++ Msg.cleanupCalled :: more) ∧
      (r.ret = true → r.sock = s ∧ r.world.msgs = w.msgs ∧ r.world.closed = w.closed ∧
        r.world.warnings = w.warnings) := by
  intro fuel
  induction fuel with
  | zero =>
    intro w b r h
    simp [AsyncSocket.sendAll] at h
  | succ k ih =>
    intro w b r h
    cases hr : net w.offered.length b with
    | error e =>
      rw [sendAll_error net k s w b e hr] at h
      injection h with h
      subst h
      refine ⟨⟨[], b, ?_, ?_⟩, ⟨[], ?_⟩, ?_, ?_⟩
      · by_cases hc : s.conn = INVALID_SOCKET
        · simp [AsyncSocket.cleanup, hc]
        · by_cases ht : s.thread = 0 <;> simp [AsyncSocket.cleanup, hc, ht]
      · simp only [List.length_nil, Nat.add_zero, true_iff]
        exact ⟨e, hr⟩
      · by_cases hc : s.conn = INVALID_SOCKET
        · simp [AsyncSocket.cleanup, hc]
        · by_cases ht : s.thread = 0 <;> simp [AsyncSocket.cleanup, hc, ht]
      · intro _
        refine ⟨cleanup_conn _ _ _, ?_⟩
        obtain ⟨more, hm⟩ := cleanup_msgs s false { w with offered := w.offered ++ [b] }
        refine ⟨more ++ [Msg.sendFailed SOCKET_ERROR b.size e], ?_⟩
        simp only [hm]
        simp
      · intro hx
        simp at hx
    | sent n =>
      by_cases hfull : n = b.length
      · rw [hfull] at hr
        rw [sendAll_sent_all net k s w b hr] at h
        injection h with h
        subst h
        refine ⟨⟨[], b, by simp, ?_⟩, ⟨[], rfl⟩, ?_, ?_⟩
        · simp [hr]
        · intro hx
          simp at hx
        · intro _
          exact ⟨rfl, rfl, rfl, rfl⟩
      · rw [sendAll_sent_part net k s w b n hr hfull] at h
        obtain ⟨⟨offs, o, hoff, hiff⟩, ⟨rest, hrest⟩, hfalse, htrue⟩ := ih _ _ r h
        refine ⟨⟨b :: offs, o, ?_, ?_⟩, ⟨shiftN b n :: rest, ?_⟩, ?_, ?_⟩
        · rw [hoff]
          simp
        · rw [hiff]
          simp [Nat.add_assoc, Nat.add_comm 1 offs.length]
        · rw [hrest]
          simp
        · exact hfalse
        · exact htrue

/-- The write loop keeps the class invariant of the socket. -/
theorem inv_sendAll (net : Transport) (s : AsyncSocket) (hs : s.Inv) :
    ∀ (fuel : Nat) (w : World) (b : Buffer) (r : SendOutcome),
      AsyncSocket.sendAll net fuel s w b = .ok r → r.sock.Inv := by
  intro fuel
  induction fuel with
  | zero =>
    intro w b r h
    simp [AsyncSocket.sendAll] at h
  | succ k ih =>
    intro w b r h
    cases hr : net w.offered.length b with
    | error e =>
      rw [sendAll_error net k s w b e hr] at h
      injection h with h
      subst h
      exact inv_cleanup s false _ hs
    | sent n =>
      by_cases hfull : n = b.length
      · rw [hfull] at hr
        rw [sendAll_sent_all net k s w b hr] at h
        injection h with h
        subst h
        exact hs
      · rw [sendAll_sent_part net k s w b n hr hfull] at h
        exact ih _ _ r h

/-- On a connected socket `send` runs `sendAll` on the length followed by the payload, after
the counter update. -/
theorem send_connected (ext : Collaborators) (net : Transport) (fuel : Nat) (s : AsyncSocket)
    (w : World) (P : Buffer) (hs : s.isConnected = true) :
    AsyncSocket.send ext net fuel s w P
      = match AsyncSocket.sendAll net fuel s
          (if ext.readInt P ≥ 0 ∧ ext.readInt P ≤ ext.MSG_IDA_MAX then
            { w with statsSent := w.statsSent ++ [ext.readInt P] } else w)
          (be32 (P.length + 4) ++ P) with
        | .error e => .error e
        | .ok r => .ok { r with b := P } := by
  have h := send_out_eq P
  simp only [AsyncSocket.send.out] at h
  simp only [AsyncSocket.send, hs, Bool.not_true, Bool.false_eq_true, if_false, h]

theorem send_disconnected (ext : Collaborators) (net : Transport) (fuel : Nat) (s : AsyncSocket)
    (w : World) (P cache : Buffer) (hs : s.isConnected = false)
    (hc : w.changeCache = some cache) :
    AsyncSocket.send ext net fuel s w P
      = .ok { ret := true, sock := s,
              world := { w with msgs := w.msgs ++ [Msg.writingToChangeCache],
                                changeCache := some (cache ++ (be32 (P.length + 4) ++ P)) },
              b := P } := by
  have h := send_out_eq P
  simp only [AsyncSocket.send.out, Buffer.writeInt, Buffer.write, Buffer.append,
    List.nil_append] at h
  simp only [AsyncSocket.send, hs, Bool.not_false, if_true, hc, Buffer.writeInt, Buffer.write,
    Buffer.append, List.append_assoc, h]

/-- The writes of a returned `sendAll`, one by one: every write before the last was a
successful short write (it accepted a number of bytes other than the number offered), the
last one reported an error exactly when the result is `false` and accepted everything
offered exactly when the result is `true`.  So no write follows a write that reported an
error. -/
theorem sendAll_trace (net : Transport) (s : AsyncSocket) :
    ∀ (fuel : Nat) (w : World) (b : Buffer) (r : SendOutcome),
      AsyncSocket.sendAll net fuel s w b = .ok r →
      ∃ offs o, r.world.offered = w.offered ++ offs ++ [o] ∧
        (∀ j x, offs[j]? = some x →
          ∃ n, net (w.offered.length + j) x = .sent n ∧ n ≠ x.length) ∧
        (r.ret = false ↔ ∃ e, net (w.offered.length + offs.length) o = .error e) ∧
        (r.ret = true ↔ net (w.offered.length + offs.length) o = .sent o.length) := by
  intro fuel
  induction fuel with
  | zero =>
    intro w b r h
    simp [AsyncSocket.sendAll] at h
  | succ k ih =>
    intro w b r h
    cases hr : net w.offered.length b with
    | error e =>
      rw [sendAll_error net k s w b e hr] at h
      injection h with h
      subst h
      refine ⟨[], b, ?_, ?_, ?_, ?_⟩
      · by_cases hc : s.conn = INVALID_SOCKET
        · simp [AsyncSocket.cleanup, hc]
        · by_cases ht : s.thread = 0 <;> simp [AsyncSocket.cleanup, hc, ht]
      · intro j x hx
        simp at hx
      · simp only [List.length_nil, Nat.add_zero, true_iff]
        exact ⟨e, hr⟩
      · simp [hr]
    | sent n =>
      by_cases hfull : n = b.length
      · rw [hfull] at hr
        rw [sendAll_sent_all net k s w b hr] at h
        injection h with h
        subst h
        refine ⟨[], b, by simp, ?_, ?_, ?_⟩
        · intro j x hx
          simp at hx
        · simp [hr]
        · simp [hr]
      · rw [sendAll_sent_part net k s w b n hr hfull] at h
        obtain ⟨offs, o, hoff, hmid, hfalse, htrue⟩ := ih _ _ r h
        refine ⟨b :: offs, o, ?_, ?_, ?_, ?_⟩
        · rw [hoff]
          simp
        · intro j x hx
          cases j with
          | zero =>
            simp only [List.getElem?_cons_zero, Option.some.injEq] at hx
            subst hx
            exact ⟨n, by simpa using hr, hfull⟩
          | succ i =>
            simp only [List.getElem?_cons_succ] at hx
            obtain ⟨m, hm, hne⟩ := hmid i x hx
            refine ⟨m, ?_, hne⟩
            simpa [Nat.add_assoc, Nat.add_comm 1 i] using hm
        · rw [hfalse]
          simp [Nat.add_assoc, Nat.add_comm 1 offs.length]
        · rw [htrue]
          simp [Nat.add_assoc, Nat.add_comm 1 offs.length]

theorem sendAll_error_result (net : Transport) (fuel : Nat) (s : AsyncSocket) (w : World)
    (b : Buffer) (e : Int) (he : net w.offered.length b = .error e) :
    ∃ r, AsyncSocket.sendAll net (fuel + 1) s w b = .ok r ∧ r.ret = false ∧
      r.sock.isConnected = false ∧ r.world.offered = w.offered ++ [b] ∧
      r.world.wire = w.wire ∧ r.b = b := by
  rw [sendAll_error net fuel s w b e he]
  refine ⟨_, rfl, rfl, cleanup_isConnected _ _ _, ?_, ?_, rfl⟩
  · by_cases hc : s.conn = INVALID_SOCKET
    · simp [AsyncSocket.cleanup, hc]
    · by_cases ht : s.thread = 0 <;> simp [AsyncSocket.cleanup, hc, ht]
  · by_cases hc : s.conn = INVALID_SOCKET
    · simp [AsyncSocket.cleanup, hc]
    · by_cases ht : s.thread = 0 <;> simp [AsyncSocket.cleanup, hc, ht]

/-- An error reported after any number of short writes ends `sendAll` at once: it returns
`false` with the socket torn down, having made one `::send` call per short write plus the
failing one. -/
theorem sendAll_error_after_short (net : Transport) (s : AsyncSocket) :
    ∀ (ns : List Nat) (fuel : Nat) (w : World) (b : Buffer) (e : Int),
      shortWrites net w.offered.length b ns →
      net (w.offered.length + ns.length) (remainderAfter b ns) = .error e →
      ∃ r, AsyncSocket.sendAll net (fuel + ns.length + 1) s w b = .ok r ∧ r.ret = false ∧
        r.sock.isConnected = false ∧
        r.world.offered.length = w.offered.length + ns.length + 1 ∧
        r.world.offered.getLast? = some (remainderAfter b ns) ∧
        r.b = remainderAfter b ns := by
  intro ns
  induction ns with
  | nil =>
    intro fuel w b e _ he
    obtain ⟨r, hr, hret, hconn, hoff, -, hb⟩ :=
      sendAll_error_result net fuel s w b e (by simpa using he)
    refine ⟨r, by simpa using hr, hret, hconn, ?_, ?_, hb⟩
    · rw [hoff]
      simp
    · rw [hoff]
      simp [remainderAfter]
  | cons n ns ih =>
    intro fuel w b e hs he
    obtain ⟨hn, hne, hrest⟩ := hs
    have hstep := sendAll_sent_part net (fuel + ns.length + 1) s w b n hn hne
    have hlen : ({ w with offered := w.offered ++ [b], wire := w.wire ++ b.take n } : World).offered.length
        = w.offered.length + 1 := by simp
    obtain ⟨r, hr, hret, hconn, hoff, hlast, hb⟩ :=
      ih fuel { w with offered := w.offered ++ [b], wire := w.wire ++ b.take n } (shiftN b n) e
        (by rw [hlen]; exact hrest)
        (by
          rw [hlen]
          simpa [remainderAfter, Nat.add_assoc, Nat.add_comm 1 ns.length] using he)
    refine ⟨r, ?_, hret, hconn, ?_, ?_, ?_⟩
    · rw [← hr, ← hstep]
      simp only [List.length_cons, Nat.add_assoc]
    · rw [hoff, hlen]
      simp only [List.length_cons]
      omega
    · simpa [remainderAfter] using hlast
    · simpa [remainderAfter] using hb

/-! ## Shifting one packet, and the module-level view of the connection -/

/-- On a complete buffer whose size fits the `int` of `Buffer::size()`, `shift` keeps exactly
the bytes from offset `requiredSize` on. -/
theorem shift_eq_drop (b : Buffer) (hfit : b.length ≤ 2 ^ 31 - 1) (h : isComplete b = true) :
    shift b = b.drop (requiredSize b).toNat := by
  have hc := (isComplete_iff b).mp h
  have hsz : Buffer.size b = (b.length : Int) := rfl
  have h1 : toUInt32 (requiredSize b) = (requiredSize b).toNat := by
    unfold toUInt32
    omega
  have h2 : toUInt32 (Buffer.size b - (((requiredSize b).toNat : Nat) : Int))
      = b.length - (requiredSize b).toNat := by
    unfold toUInt32
    omega
  unfold shift
  rw [if_pos h]
  simp only [h1, h2, Buffer.reset, Buffer.write, List.nil_append]
  by_cases hz : b.length - (requiredSize b).toNat = 0
  · rw [if_neg (by simpa using hz)]
    symm
    apply List.drop_eq_nil_of_le
    omega
  · rw [if_pos hz]
    apply List.take_of_length_le
    rw [List.length_drop]

theorem shift_incomplete (b : Buffer) (h : isComplete b = false) : shift b = b := by
  unfold shift
  rw [h]
  rfl

/-- A complete buffer declares at least one byte; nothing in `isComplete` asks for four. -/
theorem requiredSize_pos_of_isComplete (b : Buffer) (h : isComplete b = true) :
    1 ≤ requiredSize b := by
  have hc := (isComplete_iff b).mp h
  omega

/-- When a complete buffer declares four bytes or more, the range the receiver copies lies
inside the buffered bytes. -/
theorem payload_of_declared_ge_four (b : Buffer) (h : isComplete b = true)
    (h4 : 4 ≤ requiredSize b) :
    recvHandler.payload b = .ok ((b.drop 4).take ((requiredSize b).toNat - 4)) := by
  have hc := (isComplete_iff b).mp h
  have hb := toInt32_bounds (qntohlFront b)
  have hrs : requiredSize b < 2 ^ 31 := by
    unfold requiredSize
    split
    · exact hb.2
    · norm_num
  have hsz : Buffer.size b = (b.length : Int) := rfl
  have hlen : toUInt32 (requiredSize b - 4) = (requiredSize b).toNat - 4 := by
    unfold toUInt32
    omega
  unfold recvHandler.payload
  simp only [hlen]
  rw [if_pos (by omega)]

/-- After `connect_to`, `comm` is non-null exactly when the new socket is connected. -/
theorem connect_to_view (disp : Bool) (sock : Int) (created : Option Nat)
    (comm : Option AsyncSocket) (w : World) :
    (connect_to disp sock created comm w).2.1.map AsyncSocket.isConnected = none ∨
    (connect_to disp sock created comm w).2.1.map AsyncSocket.isConnected = some true := by
  unfold connect_to
  cases h : ((AsyncSocket.new disp).connect sock created w).1 with
  | false => left; simp [h]
  | true =>
    right
    simp only [h, Bool.not_true, Bool.false_eq_true, if_false, Option.map_some', Option.some.injEq]
    unfold AsyncSocket.connect at h ⊢
    by_cases hc : sock = INVALID_SOCKET
    · simp [hc, AsyncSocket.isConnected] at h
    · cases created with
      | some t => simpa [hc] using h
      | none => simpa [hc] using h

/-- After the free function `cleanup`, `is_connected()` is false. -/
theorem is_connected_cleanup (warn : Bool) (comm : Option AsyncSocket) (w : World) :
    is_connected (cleanup warn comm w).1 = false := by
  cases comm <;> rfl

/-- A failed write inside `send_all` leaves `comm` pointing to the torn-down socket. -/
theorem send_all_error_view (net : Transport) (fuel : Nat) (s : AsyncSocket) (w : World)
    (b : Buffer) (e : Int) (h : net w.offered.length b = .error e) :
    ∃ r, send_all net (fuel + 1) (some s) w b = .ok r ∧ r.ret = 0 ∧
      is_connected r.comm = true ∧ r.comm.map AsyncSocket.isConnected = some false := by
  unfold send_all
  simp only [sendAll_error net fuel s w b e h]
  refine ⟨_, rfl, rfl, rfl, ?_⟩
  simp only [Option.map_some', Option.some.injEq]
  exact cleanup_isConnected _ _ _

/-! ## The claims -/

/-- C1 (as amended). For every payload `P` with `len(P) ≤ 2^31 - 5`, the buffer `out` that
`send` builds for `P` is the 4-byte network-order length `len(P) + 4` followed by `P`, and
appending it to an empty accumulation buffer makes the receiver queue exactly one payload,
equal to `P`, and leaves the accumulation buffer empty. -/
theorem C1_frame_then_decode (P : Buffer) (hP : P.length ≤ 2 ^ 31 - 5) :
    AsyncSocket.send.out P = be32 (P.length + 4) ++ P ∧
    recvHandler.onRead true ([], []) (AsyncSocket.send.out P) = .ok ([P], []) := by
  refine ⟨send_out_eq P, ?_⟩
  rw [send_out_eq]
  exact onRead_completes_frame P [] _ (by omega) rfl

/-- C1, witness: the payload `00 00 00 07`. -/
theorem C1_frame_then_decode_witness :
    ([0, 0, 0, 7] : Buffer).length ≤ 2 ^ 31 - 5 ∧
    (AsyncSocket.send.out [0, 0, 0, 7] = be32 (([0, 0, 0, 7] : Buffer).length + 4) ++ [0, 0, 0, 7] ∧
     recvHandler.onRead true ([], []) (AsyncSocket.send.out [0, 0, 0, 7])
       = .ok ([[0, 0, 0, 7]], [])) :=
  ⟨by decide, C1_frame_then_decode [0, 0, 0, 7] (by decide)⟩

/-- C1 as stated fails: the payload of `2^31 - 4` zero bytes is within the stated bound
`2^32 - 5`, its frame declares the length `2^31`, which `requiredSize` returns as a negative
`int`; the receiver queues nothing and keeps the whole frame in the accumulation buffer. -/
theorem C1_counterexample :
    (List.replicate (2 ^ 31 - 4) (0 : Byte)).length ≤ 2 ^ 32 - 5 ∧
    recvHandler.onRead true ([], []) (AsyncSocket.send.out (List.replicate (2 ^ 31 - 4) (0 : Byte)))
      = .ok ([], AsyncSocket.send.out (List.replicate (2 ^ 31 - 4) (0 : Byte))) ∧
    recvHandler.onRead true ([], []) (AsyncSocket.send.out (List.replicate (2 ^ 31 - 4) (0 : Byte)))
      ≠ .ok ([List.replicate (2 ^ 31 - 4) (0 : Byte)], []) := by
  have hlen : (List.replicate (2 ^ 31 - 4) (0 : Byte)).length = 2 ^ 31 - 4 :=
    List.length_replicate _ _
  have hinc : isComplete (AsyncSocket.send.out (List.replicate (2 ^ 31 - 4) (0 : Byte))) = false :=
    isComplete_out_of_long _ (by rw [hlen]; norm_num) (by rw [hlen]; norm_num)
  have hrun : recvHandler.onRead true ([], [])
      (AsyncSocket.send.out (List.replicate (2 ^ 31 - 4) (0 : Byte)))
      = .ok ([], AsyncSocket.send.out (List.replicate (2 ^ 31 - 4) (0 : Byte))) :=
    onRead_fresh_incomplete _ hinc
  refine ⟨by rw [hlen]; norm_num, hrun, ?_⟩
  rw [hrun]
  intro h
  injection h with h
  injection h with h _
  cases h

/-- C2. `isComplete(b)` is true exactly when `requiredSize(b)` is positive and at most the
buffered length; `requiredSize(b)` is `-1` for fewer than four bytes and otherwise the 32-bit
`int` whose network-order encoding is the first four bytes of `b`; so `isComplete` is false
for every buffer shorter than four bytes and for every buffer whose declared length (read as
the returned `int`, or as the unsigned 32-bit value) exceeds the bytes buffered. -/
theorem C2_isComplete_requiredSize (b : Buffer) :
    (isComplete b = true ↔ 0 < requiredSize b ∧ requiredSize b ≤ b.size) ∧
    (b.length < 4 → requiredSize b = -1) ∧
    (4 ≤ b.length → be32 (toUInt32 (requiredSize b)) = b.take 4 ∧
      -2 ^ 31 ≤ requiredSize b ∧ requiredSize b < 2 ^ 31) ∧
    (b.length < 4 → isComplete b = false) ∧
    (b.size < requiredSize b → isComplete b = false) ∧
    (4 ≤ b.length → b.length < qntohlFront b → isComplete b = false) := by
  refine ⟨isComplete_iff b, fun h => requiredSize_short h, ?_, ?_, ?_, ?_⟩
  · intro h
    have hsz : b.size ≥ 4 := by
      unfold Buffer.size
      omega
    have hrs : requiredSize b = toInt32 (qntohlFront b) := by
      unfold requiredSize
      rw [if_pos hsz]
    have hb := toInt32_bounds (qntohlFront b)
    rw [hrs, toUInt32_toInt32, be32_mod]
    exact ⟨be32_qntohlFront b h, hb.1, hb.2⟩
  · intro h
    rw [isComplete_eq_false_iff, requiredSize_short h]
    omega
  · intro h
    rw [isComplete_eq_false_iff]
    omega
  · intro h hlt
    have hsz : b.size ≥ 4 := by
      unfold Buffer.size
      omega
    have hq := qntohlFront_lt b
    have hm : qntohlFront b % 2 ^ 32 = qntohlFront b := Nat.mod_eq_of_lt hq
    rw [isComplete_eq_false_iff]
    unfold requiredSize
    rw [if_pos hsz]
    unfold toInt32 Buffer.size
    rw [hm]
    split <;> omega

/-- C2, witness: the seven bytes `00 00 00 08 00 00 00` declare eight bytes and are not
complete; the three bytes `00 00 00` have no declared length. -/
theorem C2_isComplete_requiredSize_witness :
    isComplete [0, 0, 0, 8, 0, 0, 0] = false ∧ requiredSize [0, 0, 0] = -1 :=
  ⟨(C2_isComplete_requiredSize [0, 0, 0, 8, 0, 0, 0]).2.2.2.2.2 (by decide) (by decide),
   (C2_isComplete_requiredSize [0, 0, 0]).2.1 (by decide)⟩

/-- C3. For every payload `P` whose frame declares at most `2^31 - 1` bytes and every way of
cutting the frame into consecutive chunks (in particular two or more non-empty ones), running
the receiver's append-then-extract step once per chunk from an empty accumulation buffer
queues exactly one payload, equal to `P`, and leaves the accumulation buffer empty; this is
the result of delivering the frame in a single read. -/
theorem C3_frame_split_across_reads (P : Buffer) (chunks : List (List Byte))
    (hP : P.length + 4 ≤ 2 ^ 31 - 1) (hsplit : chunks.flatten = AsyncSocket.send.out P) :
    recvHandler.onReads true chunks ([], []) = .ok ([P], []) ∧
    recvHandler.onReads true chunks ([], [])
      = recvHandler.onRead true ([], []) (AsyncSocket.send.out P) := by
  have hP1 : P.length + 4 < 2 ^ 31 := by omega
  have hmulti : recvHandler.onReads true chunks ([], []) = .ok ([P], []) := by
    apply onReads_rest_of_frame P hP1 chunks []
    · rw [List.nil_append, hsplit, send_out_eq]
    · rw [hsplit, send_out_eq]
      simp [be32]
  refine ⟨hmulti, ?_⟩
  rw [hmulti, send_out_eq]
  exact (onRead_completes_frame P [] _ hP1 rfl).symm

/-- C3, witness: the frame `00 00 00 08 00 00 00 07` delivered as 3 bytes then 5 bytes. -/
theorem C3_frame_split_across_reads_witness :
    recvHandler.onReads true [[0, 0, 0], [8, 0, 0, 0, 7]] ([], []) = .ok ([[0, 0, 0, 7]], []) ∧
    recvHandler.onReads true [[0, 0, 0], [8, 0, 0, 0, 7]] ([], [])
      = recvHandler.onRead true ([], []) (AsyncSocket.send.out [0, 0, 0, 7]) :=
  C3_frame_split_across_reads [0, 0, 0, 7] [[0, 0, 0], [8, 0, 0, 0, 7]] (by decide) (by decide)

/-- C4. For every list of payloads `P1..Pn`, each framed with a declared length of at most
`2^31 - 1`, whose concatenated frames are the bytes of one read (so that they fit the `int`
that `Buffer::size()` returns), appending the concatenation to an empty accumulation buffer
makes the extraction loop queue exactly `P1..Pn`, in wire order, and leave the accumulation
buffer empty. -/
theorem C4_concatenated_frames (Ps : List Buffer)
    (hP : ∀ P ∈ Ps, P.length + 4 ≤ 2 ^ 31 - 1)
    (hfit : ((Ps.map AsyncSocket.send.out).flatten).length ≤ 2 ^ 31 - 1) :
    recvHandler.onRead true ([], []) ((Ps.map AsyncSocket.send.out).flatten) = .ok (Ps, []) := by
  simp only [recvHandler.onRead, Buffer.write, if_true, List.nil_append]
  have h := extract_frames Ps (((Ps.map AsyncSocket.send.out).flatten).length + 1) []
    (fun P hmem => by have := hP P hmem; omega) (by omega) (by omega)
  simpa using h

/-- C4, witness: the two frames of `00 00 00 07` and `00 00 00 05 09` in one read give two
queued payloads in wire order. -/
theorem C4_concatenated_frames_witness :
    recvHandler.onRead true ([], [])
      (([[0, 0, 0, 7], [0, 0, 0, 5, 9]].map AsyncSocket.send.out).flatten)
      = .ok ([[0, 0, 0, 7], [0, 0, 0, 5, 9]], []) :=
  C4_concatenated_frames [[0, 0, 0, 7], [0, 0, 0, 5, 9]] (by decide) (by decide)

/-- C5. A drain of the queue `pre ++ K :: post` on which the Dispatcher accepts every
frame of `pre` and rejects `K` invokes the Dispatcher on `pre` and then `K`, in FIFO order, and
on no frame of `post`; afterwards the connection is disconnected (`isConnected()` is false).
A drain on which the Dispatcher accepts every queued frame invokes it on each frame once, in
FIFO order, leaves the queue empty and does not touch the connection. -/
theorem C5_drain_until_rejection (disp : Dispatcher) (s : AsyncSocket) (w : World) :
    (∀ (pre : List Buffer) (K : Buffer) (post : List Buffer),
      (∀ i b, pre[i]? = some b → disp i b = true) → disp pre.length K = false →
      ∃ r s1, execute disp { comm := some s, world := w, buffers := pre ++ K :: post,
                             dispatched := [], deleted := [] } = .ok r ∧
        r.dispatched = pre ++ [K] ∧ r.buffers = post ∧
        r.comm = some s1 ∧ s1.isConnected = false) ∧
    (∀ (q : List Buffer), (∀ i b, q[i]? = some b → disp i b = true) →
      ∃ r, execute disp { comm := some s, world := w, buffers := q,
                          dispatched := [], deleted := [] } = .ok r ∧
        r.dispatched = q ∧ r.buffers = [] ∧ r.deleted = q ∧ r.comm = some s ∧ r.world = w) := by
  constructor
  · intro pre K post hpre hK
    refine ⟨_, (s.cleanup true w).1,
      executeLoop_rejected disp s w K post pre [] [] (by simpa using hpre) (by simpa using hK),
      ?_, rfl, rfl, cleanup_isConnected s true w⟩
    simp
  · intro q hq
    refine ⟨_, executeLoop_all_accepted disp (some s) w q [] [] (by simpa using hq),
      ?_, rfl, ?_, rfl, rfl⟩ <;> simp

/-- C5, witness: three queued frames, the Dispatcher rejects the second; and two queued
frames, the Dispatcher accepts both. -/
theorem C5_drain_until_rejection_witness :
    (∃ r s1, execute (fun i _ => i != 1)
        { comm := some ⟨3, 7, true⟩, world := ⟨none, [], [], 0, [], [], [], []⟩,
          buffers := [[1]] ++ [2] :: [[3]], dispatched := [], deleted := [] } = .ok r ∧
      r.dispatched = [[1]] ++ [[2]] ∧ r.buffers = [[3]] ∧
      r.comm = some s1 ∧ s1.isConnected = false) ∧
    (∃ r, execute (fun _ _ => true)
        { comm := some ⟨3, 7, true⟩, world := ⟨none, [], [], 0, [], [], [], []⟩,
          buffers := [[1], [2]], dispatched := [], deleted := [] } = .ok r ∧
      r.dispatched = [[1], [2]] ∧ r.buffers = [] ∧ r.deleted = [[1], [2]] ∧
      r.comm = some ⟨3, 7, true⟩ ∧ r.world = ⟨none, [], [], 0, [], [], [], []⟩) :=
  ⟨(C5_drain_until_rejection (fun i _ => i != 1) ⟨3, 7, true⟩
      ⟨none, [], [], 0, [], [], [], []⟩).1 [[1]] [2] [[3]]
      (by
        intro i b h
        cases i with
        | zero => rfl
        | succ j => simp at h)
      (by decide),
   (C5_drain_until_rejection (fun _ _ => true) ⟨3, 7, true⟩
      ⟨none, [], [], 0, [], [], [], []⟩).2 [[1], [2]] (fun _ _ _ => rfl)⟩

/-- C6. `BufferList::enqueue` appends the frame at the tail and returns true exactly when
the queue was empty before; `queueBuffer` requests a drain in exactly that case; and in a run
of enqueues without a dequeue that starts from the empty queue the first call returns true
and every later call returns false. -/
theorem C6_enqueue_first_only (q : BufferList) (b : Buffer) (bs : List Buffer) :
    BufferList.enqueue q b = (q ++ [b], decide (q = [])) ∧
    queueBuffer q b = (q ++ [b], decide (q = [])) ∧
    BufferList.enqueueAll [] (b :: bs) = (b :: bs, true :: List.replicate bs.length false) := by
  refine ⟨enqueue_eq q b, ?_, ?_⟩
  · unfold queueBuffer
    rw [enqueue_eq]
    by_cases hq : q = [] <;> simp [hq]
  · have h := enqueueAll_nonempty bs [b] (by simp)
    simp only [BufferList.enqueueAll, enqueue_eq, List.nil_append, decide_True, h,
      List.singleton_append]

/-- C7. For every buffer `B` and every transport whose writes all succeed and accept between
one and all of the bytes offered, `sendAll` returns true (one loop iteration per byte is
enough), does not tear the connection down, and the bytes accepted by the transport, in
order, are exactly `B`: the same bytes as when the first write accepts all of `B`. -/
theorem C7_short_writes_in_order (net : Transport) (s : AsyncSocket) (w : World) (B : Buffer)
    (fuel : Nat)
    (hnet : ∀ i o, ∃ n, net i o = .sent n ∧ n ≤ o.length ∧ (o ≠ [] → 1 ≤ n))
    (hfuel : B.length < fuel) :
    ∃ r r1, AsyncSocket.sendAll net fuel s w B = .ok r ∧ r.ret = true ∧ r.sock = s ∧
      r.world.wire = w.wire ++ B ∧
      AsyncSocket.sendAll (fun _ o => .sent o.length) fuel s w B = .ok r1 ∧ r1.ret = true ∧
      r1.world.offered = w.offered ++ [B] ∧ r1.world.wire = r.world.wire := by
  obtain ⟨r, hr, hret, hsock, hwire, -, -, -⟩ := sendAll_progress net hnet s fuel w B hfuel
  obtain ⟨k, rfl⟩ : ∃ k, fuel = k + 1 := ⟨fuel - 1, by omega⟩
  refine ⟨r, _, hr, hret, hsock, hwire,
    sendAll_sent_all (fun _ o => .sent o.length) k s w B rfl, rfl, rfl, ?_⟩
  rw [hwire]

/-- C7, witness: the frame `00 00 00 08 00 00 00 07` written one byte at a time. -/
theorem C7_short_writes_in_order_witness :
    ∃ r r1, AsyncSocket.sendAll (fun _ o => .sent (min 1 o.length)) 9 ⟨3, 7, true⟩
        ⟨none, [], [], 0, [], [], [], []⟩ [0, 0, 0, 8, 0, 0, 0, 7] = .ok r ∧
      r.ret = true ∧ r.sock = ⟨3, 7, true⟩ ∧
      r.world.wire = (⟨none, [], [], 0, [], [], [], []⟩ : World).wire ++ [0, 0, 0, 8, 0, 0, 0, 7] ∧
      AsyncSocket.sendAll (fun _ o => .sent o.length) 9 ⟨3, 7, true⟩
        ⟨none, [], [], 0, [], [], [], []⟩ [0, 0, 0, 8, 0, 0, 0, 7] = .ok r1 ∧ r1.ret = true ∧
      r1.world.offered = (⟨none, [], [], 0, [], [], [], []⟩ : World).offered
        ++ [[0, 0, 0, 8, 0, 0, 0, 7]] ∧
      r1.world.wire = r.world.wire :=
  C7_short_writes_in_order (fun _ o => .sent (min 1 o.length)) ⟨3, 7, true⟩
    ⟨none, [], [], 0, [], [], [], []⟩ [0, 0, 0, 8, 0, 0, 0, 7] 9
    (by
      intro i o
      refine ⟨min 1 o.length, rfl, Nat.min_le_right _ _, ?_⟩
      intro ho
      have := List.length_pos.mpr ho
      omega)
    (by decide)

/-- C8. For every payload `P`, `send` on a disconnected socket with an offline cache returns
true, makes no `::send` call, and appends to the cache exactly the 4-byte network-order
length `len(P) + 4` followed by `P`; on a connected socket these same bytes are what the
first `::send` call is offered, and what goes on the wire when that call accepts them all. -/
theorem C8_send_offline_same_bytes (ext : Collaborators) (net : Transport) (fuel : Nat)
    (s : AsyncSocket) (w : World) (P cache : Buffer)
    (hs : s.isConnected = false) (hc : w.changeCache = some cache) :
    (∃ r, AsyncSocket.send ext net fuel s w P = .ok r ∧ r.ret = true ∧ r.sock = s ∧
      r.world.offered = w.offered ∧ r.world.wire = w.wire ∧
      r.world.changeCache = some (cache ++ (be32 (P.length + 4) ++ P))) ∧
    (∀ (s1 : AsyncSocket) (w1 : World) (r1 : SendOutcome), s1.isConnected = true →
      AsyncSocket.send ext net fuel s1 w1 P = .ok r1 →
      ∃ rest, r1.world.offered = w1.offered ++ (be32 (P.length + 4) ++ P) :: rest) ∧
    (∀ (s1 : AsyncSocket) (w1 : World), s1.isConnected = true →
      net w1.offered.length (be32 (P.length + 4) ++ P)
        = .sent (be32 (P.length + 4) ++ P).length →
      ∃ r1, AsyncSocket.send ext net (fuel + 1) s1 w1 P = .ok r1 ∧ r1.ret = true ∧
        r1.world.wire = w1.wire ++ (be32 (P.length + 4) ++ P)) := by
  refine ⟨?_, ?_, ?_⟩
  · rw [send_disconnected ext net fuel s w P cache hs hc]
    exact ⟨_, rfl, rfl, rfl, rfl, rfl, rfl⟩
  · intro s1 w1 r1 h1 hr
    rw [send_connected ext net fuel s1 w1 P h1] at hr
    cases hsa : AsyncSocket.sendAll net fuel s1
        (if ext.readInt P ≥ 0 ∧ ext.readInt P ≤ ext.MSG_IDA_MAX then
          { w1 with statsSent := w1.statsSent ++ [ext.readInt P] } else w1)
        (be32 (P.length + 4) ++ P) with
    | error e =>
      rw [hsa] at hr
      cases hr
    | ok r =>
      rw [hsa] at hr
      injection hr with hr
      subst hr
      obtain ⟨rest, hrest⟩ := (sendAll_outcome net s1 fuel _ _ r hsa).2.1
      refine ⟨rest, ?_⟩
      show r.world.offered = _
      rw [hrest]
      split <;> rfl
  · intro s1 w1 h1 hn
    rw [send_connected ext net (fuel + 1) s1 w1 P h1]
    split
    · next e hsa =>
      exfalso
      revert hsa
      split
      · rw [sendAll_sent_all net fuel s1
          { w1 with statsSent := w1.statsSent ++ [ext.readInt P] } _ hn]
        intro hsa
        cases hsa
      · rw [sendAll_sent_all net fuel s1 w1 _ hn]
        intro hsa
        cases hsa
    · next r hsa =>
      revert hsa
      split
      · rw [sendAll_sent_all net fuel s1
          { w1 with statsSent := w1.statsSent ++ [ext.readInt P] } _ hn]
        intro hsa
        injection hsa with hsa
        subst hsa
        exact ⟨_, rfl, rfl, rfl⟩
      · rw [sendAll_sent_all net fuel s1 w1 _ hn]
        intro hsa
        injection hsa with hsa
        subst hsa
        exact ⟨_, rfl, rfl, rfl⟩

/-- C8, witness: the payload `00 00 00 07` sent on a fresh (disconnected) socket with an
empty offline cache. -/
theorem C8_send_offline_same_bytes_witness :
    ∃ r, AsyncSocket.send ⟨100, fun _ => 7⟩ (fun _ o => .sent o.length) 1
        (AsyncSocket.new true) ⟨some [], [], [], 0, [], [], [], []⟩ [0, 0, 0, 7] = .ok r ∧
      r.ret = true ∧ r.sock = AsyncSocket.new true ∧
      r.world.offered = (⟨some [], [], [], 0, [], [], [], []⟩ : World).offered ∧
      r.world.wire = (⟨some [], [], [], 0, [], [], [], []⟩ : World).wire ∧
      r.world.changeCache
        = some ([] ++ (be32 (([0, 0, 0, 7] : Buffer).length + 4) ++ [0, 0, 0, 7])) :=
  (C8_send_offline_same_bytes ⟨100, fun _ => 7⟩ (fun _ o => .sent o.length) 1
    (AsyncSocket.new true) ⟨some [], [], [], 0, [], [], [], []⟩ [0, 0, 0, 7] []
    (by decide) rfl).1

/-- C9 (as amended). `sendAll` tears the connection down and returns failure exactly when a
write reports `SOCKET_ERROR`, whatever the error code, a transient block included: the
failing write is not retried, `cleanup` is called (the socket becomes invalid) and `false` is
returned.  This holds for an error on the first write and for an error after any number of
short writes (`shortWrites`): `sendAll` then has made one `::send` call per short write plus the
failing one, and none after it.  The loop goes round again exactly after a short write, on
the bytes that `shift(b, len)` leaves, and ends with `true` and no `cleanup` on a write that
accepts everything offered.  Whenever `sendAll` returns, every write before the last was a
successful short write, the result is `false` exactly when the last write reported an error
and `true` exactly when it accepted everything offered, a `false` comes with the teardown and
a `true` without a call of `cleanup`. -/
theorem C9_sendAll_any_error_is_fatal (net : Transport) (s : AsyncSocket) (w : World)
    (b : Buffer) (fuel : Nat) :
    (∀ e, net w.offered.length b = .error e →
      ∃ r, AsyncSocket.sendAll net (fuel + 1) s w b = .ok r ∧ r.ret = false ∧
        r.sock.isConnected = false ∧ r.world.offered = w.offered ++ [b] ∧
        r.world.wire = w.wire) ∧
    (∀ r, AsyncSocket.sendAll net fuel s w b = .ok r →
      (∃ offs o, r.world.offered = w.offered ++ offs ++ [o] ∧
        (r.ret = false ↔ ∃ e, net (w.offered.length + offs.length) o = .error e)) ∧
      (r.ret = false → r.sock.isConnected = false ∧
        ∃ more, r.world.msgs = w.msgs ++ Msg.cleanupCalled :: more) ∧
      (r.ret = true → r.sock = s ∧ r.world.msgs = w.msgs ∧ r.world.closed = w.closed)) ∧
    (∀ (ns : List Nat) (e : Int), shortWrites net w.offered.length b ns →
      net (w.offered.length + ns.length) (remainderAfter b ns) = .error e →
      ∃ r, AsyncSocket.sendAll net (fuel + ns.length + 1) s w b = .ok r ∧ r.ret = false ∧
        r.sock.isConnected = false ∧
        r.world.offered.length = w.offered.length + ns.length + 1 ∧
        r.world.offered.getLast? = some (remainderAfter b ns)) ∧
    (∀ n, net w.offered.length b = .sent n → n ≠ b.length →
      AsyncSocket.sendAll net (fuel + 1) s w b
        = AsyncSocket.sendAll net fuel s
            { w with offered := w.offered ++ [b], wire := w.wire ++ b.take n } (shiftN b n)) ∧
    (net w.offered.length b = .sent b.length →
      AsyncSocket.sendAll net (fuel + 1) s w b
        = .ok { ret := true, sock := s,
                world := { w with offered := w.offered ++ [b], wire := w.wire ++ b },
                b := b }) ∧
    (∀ r, AsyncSocket.sendAll net fuel s w b = .ok r →
      ∃ offs o, r.world.offered = w.offered ++ offs ++ [o] ∧
        (∀ j x, offs[j]? = some x →
          ∃ n, net (w.offered.length + j) x = .sent n ∧ n ≠ x.length) ∧
        (r.ret = false ↔ ∃ e, net (w.offered.length + offs.length) o = .error e) ∧
        (r.ret = true ↔ net (w.offered.length + offs.length) o = .sent o.length)) := by
  refine ⟨?_, ?_, ?_, ?_, ?_, ?_⟩
  · intro e he
    obtain ⟨r, hr, h1, h2, h3, h4, -⟩ := sendAll_error_result net fuel s w b e he
    exact ⟨r, hr, h1, h2, h3, h4⟩
  · intro r hr
    obtain ⟨h1, -, h3, h4⟩ := sendAll_outcome net s fuel w b r hr
    refine ⟨h1, ?_, ?_⟩
    · intro hf
      obtain ⟨hconn, hm⟩ := h3 hf
      exact ⟨by simp [AsyncSocket.isConnected, hconn], hm⟩
    · intro ht
      obtain ⟨a, b1, c, -⟩ := h4 ht
      exact ⟨a, b1, c⟩
  · intro ns e hs he
    obtain ⟨r, hr, h1, h2, h3, h4, -⟩ := sendAll_error_after_short net s ns fuel w b e hs he
    exact ⟨r, hr, h1, h2, h3, h4⟩
  · intro n hn hne
    exact sendAll_sent_part net fuel s w b n hn hne
  · intro hn
    exact sendAll_sent_all net fuel s w b hn
  · intro r hr
    exact sendAll_trace net s fuel w b r hr

/-- C9, witness: on a connected socket, a first write that fails with `EAGAIN`; and a first
write that accepts 3 of the 8 bytes followed by a write that fails with `EPIPE`, where every
later write would accept all bytes offered. -/
theorem C9_sendAll_any_error_is_fatal_witness :
    (∃ r, AsyncSocket.sendAll (fun i o => if i = 0 then .error EAGAIN else .sent o.length)
        (1 + 1) ⟨3, 7, true⟩ ⟨none, [], [], 0, [], [], [], []⟩ [0, 0, 0, 8, 0, 0, 0, 7] = .ok r ∧
      r.ret = false ∧ r.sock.isConnected = false ∧
      r.world.offered = (⟨none, [], [], 0, [], [], [], []⟩ : World).offered
        ++ [[0, 0, 0, 8, 0, 0, 0, 7]] ∧
      r.world.wire = (⟨none, [], [], 0, [], [], [], []⟩ : World).wire) ∧
    (∃ r, AsyncSocket.sendAll
        (fun i o => if i = 0 then .sent 3 else if i = 1 then .error EPIPE else .sent o.length)
        (7 + [3].length + 1) ⟨3, 7, true⟩ ⟨none, [], [], 0, [], [], [], []⟩
        [0, 0, 0, 8, 0, 0, 0, 7] = .ok r ∧
      r.ret = false ∧ r.sock.isConnected = false ∧
      r.world.offered.length
        = (⟨none, [], [], 0, [], [], [], []⟩ : World).offered.length + [3].length + 1 ∧
      r.world.offered.getLast? = some (remainderAfter [0, 0, 0, 8, 0, 0, 0, 7] [3])) :=
  ⟨(C9_sendAll_any_error_is_fatal (fun i o => if i = 0 then .error EAGAIN else .sent o.length)
      ⟨3, 7, true⟩ ⟨none, [], [], 0, [], [], [], []⟩ [0, 0, 0, 8, 0, 0, 0, 7] 1).1 EAGAIN rfl,
   (C9_sendAll_any_error_is_fatal
      (fun i o => if i = 0 then .sent 3 else if i = 1 then .error EPIPE else .sent o.length)
      ⟨3, 7, true⟩ ⟨none, [], [], 0, [], [], [], []⟩ [0, 0, 0, 8, 0, 0, 0, 7] 7).2.2.1 [3] EPIPE
      (by decide) rfl⟩

/-- C9 as stated fails: the first write of the frame `00 00 00 08 00 00 00 07` reports the
transient block `EAGAIN` and every later write would accept all bytes offered; `sendAll`
does not retry: it makes that one `::send` call, calls `cleanup` (socket `3` is closed, worker
`7` joined, the socket becomes invalid) and returns `false` with no byte sent. -/
theorem C9_counterexample :
    AsyncSocket.sendAll (fun i o => if i = 0 then .error EAGAIN else .sent o.length) 9
        ⟨3, 7, true⟩ ⟨none, [], [], 0, [], [], [], []⟩ [0, 0, 0, 8, 0, 0, 0, 7]
      = .ok { ret := false,
              sock := ⟨INVALID_SOCKET, 0, true⟩,
              world := { changeCache := none, statsSent := [],
                         msgs := [Msg.cleanupCalled, Msg.syncOnThreadExit,
                                  Msg.sendFailed (-1) 8 EAGAIN],
                         warnings := 0, closed := [3], joined := [7],
                         offered := [[0, 0, 0, 8, 0, 0, 0, 7]], wire := [] },
              b := [0, 0, 0, 8, 0, 0, 0, 7] } := by
  decide

/-- C10. Calling `AsyncSocket::cleanup` a second time right after a first call, whatever the
two warn flags, leaves the socket object as the first call left it (handle invalid, and no
worker thread for every object that satisfies the class invariant), closes no socket, joins
no thread and shows no further warning: it only writes its log line.  After any cleanup
`isConnected()` is false.  The free function `cleanup` applied twice is the same as applied
once. -/
theorem C10_cleanup_idempotent (s : AsyncSocket) (w : World) (warn1 warn2 : Bool)
    (comm : Option AsyncSocket) :
    ((s.cleanup warn1 w).1.cleanup warn2 (s.cleanup warn1 w).2).1 = (s.cleanup warn1 w).1 ∧
    ((s.cleanup warn1 w).1.cleanup warn2 (s.cleanup warn1 w).2).2
      = { (s.cleanup warn1 w).2 with
          msgs := (s.cleanup warn1 w).2.msgs ++ [Msg.cleanupCalled] } ∧
    (s.cleanup warn1 w).1.conn = INVALID_SOCKET ∧
    (s.cleanup warn1 w).1.isConnected = false ∧
    (s.Inv → (s.cleanup warn1 w).1.thread = 0) ∧
    cleanup warn2 (cleanup warn1 comm w).1 (cleanup warn1 comm w).2 = cleanup warn1 comm w := by
  have h := cleanup_of_invalid (s.cleanup warn1 w).1 warn2 (s.cleanup warn1 w).2
    (cleanup_conn s warn1 w)
  refine ⟨?_, ?_, cleanup_conn s warn1 w, cleanup_isConnected s warn1 w,
    cleanup_thread s warn1 w, ?_⟩
  · rw [h]
  · rw [h]
  · cases comm <;> rfl

/-- C10, witness: a connected socket with a worker thread, torn down with a warning and then
again without. -/
theorem C10_cleanup_idempotent_witness :
    (AsyncSocket.cleanup ⟨3, 7, true⟩ true ⟨none, [], [], 0, [], [], [], []⟩).1.thread = 0 :=
  (C10_cleanup_idempotent ⟨3, 7, true⟩ ⟨none, [], [], 0, [], [], [], []⟩ true false none).2.2.2.2.1
    (by decide)

/-- C11. For every buffer `b` whose size fits the `int` that `Buffer::size()` returns: when
`isComplete(b)` holds, `shift(b)` leaves exactly the bytes of the old `b` from offset
`requiredSize(b)` to the end, in order, so the old `b` is its first `requiredSize(b)` bytes
followed by the new `b`, and the new length is the old length minus `requiredSize(b)`; when
`b` is not complete, `shift(b)` leaves `b` unchanged. -/
theorem C11_shift_removes_one_packet (b : Buffer) (hfit : b.length ≤ 2 ^ 31 - 1) :
    (isComplete b = true →
      shift b = b.drop (requiredSize b).toNat ∧
      b = b.take (requiredSize b).toNat ++ shift b ∧
      (b.take (requiredSize b).toNat).length = (requiredSize b).toNat ∧
      ((shift b).length : Int) = (b.length : Int) - requiredSize b) ∧
    (isComplete b = false → shift b = b) := by
  refine ⟨?_, shift_incomplete b⟩
  intro h
  have hc := (isComplete_iff b).mp h
  have hsz : Buffer.size b = (b.length : Int) := rfl
  have hd := shift_eq_drop b hfit h
  refine ⟨hd, ?_, ?_, ?_⟩
  · rw [hd, List.take_append_drop]
  · rw [List.length_take]
    omega
  · rw [hd, List.length_drop]
    omega

/-- C11, witness: the frame `00 00 00 08 00 00 00 07` followed by the bytes `01 02`, and the
incomplete seven bytes `00 00 00 08 00 00 00`. -/
theorem C11_shift_removes_one_packet_witness :
    shift [0, 0, 0, 8, 0, 0, 0, 7, 1, 2]
      = List.drop (requiredSize [0, 0, 0, 8, 0, 0, 0, 7, 1, 2]).toNat
          [0, 0, 0, 8, 0, 0, 0, 7, 1, 2] ∧
    shift [0, 0, 0, 8, 0, 0, 0] = [0, 0, 0, 8, 0, 0, 0] :=
  ⟨((C11_shift_removes_one_packet [0, 0, 0, 8, 0, 0, 0, 7, 1, 2] (by decide)).1 (by decide)).1,
   (C11_shift_removes_one_packet [0, 0, 0, 8, 0, 0, 0] (by decide)).2 (by decide)⟩

/-- C12, the code at the four received bytes `00 00 00 01`: `isComplete` holds although the
declared length is `1`, below four; the payload length `requiredSize - 4` wraps to
`2^32 - 3` as an `unsigned int`, the copy of that many bytes from offset four reads past the
end of the buffer, and so does the receiver's step on this read. -/
theorem C12_complete_with_declared_length_below_four :
    isComplete [0, 0, 0, 1] = true ∧
    requiredSize [0, 0, 0, 1] = 1 ∧
    toUInt32 (requiredSize [0, 0, 0, 1] - 4) = 2 ^ 32 - 3 ∧
    recvHandler.payload [0, 0, 0, 1] = .error .outOfBounds ∧
    recvHandler.onRead true ([], []) [0, 0, 0, 1] = .error .outOfBounds := by
  decide

/-- C13, the code after a teardown: from the initial state (`comm` is `NULL`), a successful
`connect_to` followed by a `send_all` whose write fails with `EPIPE`, or followed by a drain in
which the Dispatcher rejects the queued frame, ends in a state where `is_connected()` returns
true while `comm->isConnected()` is false. -/
theorem C13_is_connected_true_after_teardown :
    (Plugin.run [.connect_to true 3 (some 7),
                 .send_all (fun _ _ => .error EPIPE) 1 [0, 0, 0, 8, 0, 0, 0, 7]]
        (Plugin.init ⟨none, [], [], 0, [], [], [], []⟩)).map Plugin.view
      = .ok (true, some false) ∧
    (Plugin.run [.connect_to true 3 (some 7), .execute (fun _ _ => false) [[0, 0, 0, 7]]]
        (Plugin.init ⟨none, [], [], 0, [], [], [], []⟩)).map Plugin.view
      = .ok (true, some false) := by
  decide

end Idanet
